import Mathlib

/-!
# Verification of `scripts/make-webpack-config.js`

A shallow embedding of the webpack configuration assembly of the style guide
generator, followed by theorems about it.

JavaScript values are embedded as the tree `JsVal`.  A property that holds
`undefined` is identified with an absent property, so `undefined` itself is the
`none` of `Option JsVal`.  A thrown error is the `error` of `Except JsError`.
-/

namespace MakeWebpackConfig

/-! ## The embedding -/

/-- A thrown JavaScript error, identified by its message.  The wording of the
`TypeError`s that the engine itself raises differs between engine versions; the
texts used here stand for them. -/
abbrev JsError := String

/-- JavaScript values as they occur in webpack configurations.
`regexp` is a `RegExp`, given by what `RegExp.prototype.test` answers;
`func` is a function as seen through calls with one string argument;
`inst` is a plugin, the instance `new cls(options)` of a plugin class; it is not
a plain object and has none of the properties that this module reads.  A
function that returns `undefined` is taken to return `null`. -/
inductive JsVal where
  | null
  | bool (b : Bool)
  | num (n : Int)
  | str (s : String)
  | regexp (test : String → Bool)
  | func (call : String → Except JsError JsVal)
  | arr (items : List JsVal)
  | obj (fields : List (String × JsVal))
  | inst (cls : String) (options : List (String × JsVal))

/-- The fields of a plain object, in insertion order. -/
abbrev Fields := List (String × JsVal)

open JsVal

/-- Own property `k` of a plain object: the first field with that key. -/
def lookup (k : String) : Fields → Option JsVal
  | [] => none
  | (k', v) :: rest => if k' = k then some v else lookup k rest

/-- Assignment `o[k] = v` on the fields of a plain object. -/
def setField (k : String) (v : JsVal) : Fields → Fields
  | [] => [(k, v)]
  | (k', v') :: rest => if k' = k then (k', v) :: rest else (k', v') :: setField k v rest

/-- The method `RegExp.prototype.test` as a value taken off its pattern: called
with a string and no receiver it throws. -/
def regExpPrototypeTest : JsVal :=
  func (fun _ => .error
    "TypeError: Method RegExp.prototype.test called on incompatible receiver undefined")

/-- Property access `x.k`.  It throws on `undefined` and `null`; a plain object
answers with its property; a `RegExp` inherits the method `test`; the other
values have none of the properties that this module reads. -/
def getProp (x : Option JsVal) (k : String) : Except JsError (Option JsVal) :=
  match x with
  | none => .error ("TypeError: Cannot read property " ++ k ++ " of undefined")
  | some null => .error ("TypeError: Cannot read property " ++ k ++ " of null")
  | some (obj fields) => .ok (lookup k fields)
  | some (regexp _) => .ok (if k = "test" then some regExpPrototypeTest else none)
  | some _ => .ok none

/-- JavaScript truthiness. -/
def truthy : JsVal → Bool
  | null => false
  | .bool b => b
  | num n => n != 0
  | str s => s != ""
  | _ => true

/-- Modelled from the spec: `omit` of the `lodash` package, which this
repository imports and does not contain; it strips the given keys from a plain
object and keeps the other fields in order. -/
def omitKeys (object : Fields) (keys : List String) : Fields :=
  object.filter (fun p => !keys.contains p.1)

mutual
/-- Modelled from the spec: `merge` of the `webpack-merge` package, which this
repository imports and does not contain.  For mapping fields the keys combine
and the right-hand value wins on conflict; for ordered sequences the right-hand
elements are appended after the existing ones. -/
def merge : JsVal → JsVal → JsVal
  | arr a, arr b => arr (a ++ b)
  | obj a, obj b => obj (mergeFields a b ++ b.filter (fun p => (lookup p.1 a).isNone))
  | _, b => b
/-- The fields of the left object, each merged with the right object's value
for the same key. -/
def mergeFields : Fields → Fields → Fields
  | [], _ => []
  | (k, a) :: rest, b =>
    (k, match lookup k b with
        | some v => merge a v
        | none => a) :: mergeFields rest b
end

/-- Paths that depend on where the package is installed. -/
structure Host where
  /-- Value of `path.resolve(__dirname, '../lib')`. -/
  sourceDir : String
  /-- Value of `path.resolve(__dirname, '../loaders')`. -/
  loadersDir : String
  /-- Value of `require.resolve('react-dev-utils/webpackHotDevClient')`. -/
  hotDevClient : String

/-- Value of `path.resolve(sourceDir, 'index')`. -/
def indexEntry (host : Host) : String := host.sourceDir ++ "/index"

/-- The user's `webpackConfig` option: a plain object or a function of the
environment name that returns one. -/
inductive UserWebpackConfig where
  | value (fields : Fields)
  | function (f : String → Except JsError Fields)

/-- The guide's `updateWebpackConfig` function.  `run` is a call with a
configuration and the environment name, as line 190 makes it; `onString` is a
call with one string, the view that `JsVal.func` takes of a function. -/
structure Hook where
  run : JsVal → String → Except JsError JsVal
  onString : String → Except JsError JsVal

/-- The style guide configuration: the options that this module reads, and in
`others` the remaining properties of the object. -/
structure GuideConfig where
  title : String
  template : String
  styleguideDir : String
  highlightTheme : String
  webpackConfig : Option UserWebpackConfig
  updateWebpackConfig : Option Hook
  verbose : Bool
  others : Fields

/-- The style guide configuration as the JavaScript object that the result
embeds under `styleguidist`: the whole object, its two functions included. -/
def GuideConfig.toJs (config : GuideConfig) : JsVal :=
  obj ([("title", str config.title),
        ("template", str config.template),
        ("styleguideDir", str config.styleguideDir),
        ("highlightTheme", str config.highlightTheme),
        ("verbose", bool config.verbose)] ++
    (match config.webpackConfig with
     | none => []
     | some (.value fields) => [("webpackConfig", obj fields)]
     | some (.function f) => [("webpackConfig", func (fun env => (f env).map obj))]) ++
    (match config.updateWebpackConfig with
     | none => []
     | some hook => [("updateWebpackConfig", func hook.onString)]) ++
    config.others)

/-- Major component of the installed webpack version, as `semver-utils` gives
it: a string. -/
abbrev WebpackVersion := String

/-- Translation of `isWebpack2 = webpackVersion === '2'`. -/
def isWebpack2 (webpackVersion : WebpackVersion) : Bool := webpackVersion == "2"

/-- The hexadecimal digit of a number below sixteen, in lower case. -/
def hexDigit (n : Nat) : Char :=
  if n < 10 then Char.ofNat (48 + n) else Char.ofNat (87 + n)

/-- The JSON escape of one character: the quote and the backslash get a
backslash, a control character below U+0020 gets its short form or the form
`\u00XX`, and every other character stands for itself. -/
def jsonEscape (c : Char) : String :=
  if c = Char.ofNat 34 then "\\\""
  else if c = Char.ofNat 92 then "\\\\"
  else if c = Char.ofNat 8 then "\\b"
  else if c = Char.ofNat 12 then "\\f"
  else if c = Char.ofNat 10 then "\\n"
  else if c = Char.ofNat 13 then "\\r"
  else if c = Char.ofNat 9 then "\\t"
  else if c.toNat < 32 then
    "\\u00" ++ String.mk [hexDigit (c.toNat / 16), hexDigit (c.toNat % 16)]
  else c.toString

/-- Value of `JSON.stringify(env)` for a string: its characters escaped,
between quotes. -/
def jsonStringify (s : String) : String :=
  "\"" ++ String.join (s.toList.map jsonEscape) ++ "\""

/-- The probe file name of `hasJsonLoader`. -/
def testString : String := "test.json"

/-- The callback of `some` in `hasJsonLoader`, applied to one matcher. -/
def matcherAccepts (matcher : Option JsVal) : Except JsError Bool :=
  match matcher with
  | some (regexp test) => .ok (test testString)
  | some (func call) => (call testString).map truthy
  | _ => .ok false

/-- Value of `[].concat(x)`: the elements of an array, or the value alone. -/
def concatValue (x : Option JsVal) : List (Option JsVal) :=
  match x with
  | some (arr items) => items.map some
  | other => [other]

/-- `Array.prototype.some`: left to right, stopping at the first truthy answer. -/
def someM (p : Option JsVal → Except JsError Bool) : List (Option JsVal) → Except JsError Bool
  | [] => .ok false
  | x :: rest =>
    match p x with
    | .error e => .error e
    | .ok true => .ok true
    | .ok false => someM p rest

/-- The reducer of `hasJsonLoader`: `value || [].concat(loader.test).some(...)`. -/
def reducer (value : Bool) (loader : JsVal) : Except JsError Bool :=
  if value then .ok true
  else
    match getProp (some loader) "test" with
    | .error e => .error e
    | .ok test => someM matcherAccepts (concatValue test)

/-- `Array.prototype.reduce` with the reducer of `hasJsonLoader`. -/
def reduceLoaders (value : Bool) : List JsVal → Except JsError Bool
  | [] => .ok value
  | loader :: rest =>
    match reducer value loader with
    | .error e => .error e
    | .ok v => reduceLoaders v rest

/-- Translation of `hasJsonLoader(webpackConfig)`. -/
def hasJsonLoader (webpackConfig : JsVal) : Except JsError Bool :=
  match getProp (some webpackConfig) "module" with
  | .error e => .error e
  | .ok module =>
    match getProp module "loaders" with
    | .error e => .error e
    | .ok (some (arr loaders)) => reduceLoaders false loaders
    | .ok _ => .error "TypeError: webpackConfig.module.loaders.reduce is not a function"

/-- The core's `output` object. -/
def coreOutput (config : GuideConfig) : JsVal :=
  obj [("path", str config.styleguideDir),
       ("filename", str "build/bundle.js"),
       ("chunkFilename", str "build/[name].js")]

/-- The template-injection plugin `new HtmlWebpackPlugin(...)`. -/
def htmlWebpackPlugin (config : GuideConfig) : JsVal :=
  inst "HtmlWebpackPlugin"
    [("title", str config.title), ("template", str config.template), ("inject", bool true)]

/-- The environment-define plugin `new webpack.DefinePlugin(...)`. -/
def definePlugin (env : String) : JsVal :=
  inst "webpack.DefinePlugin" [("process.env", obj [("NODE_ENV", str (jsonStringify env))])]

/-- The loader-options wrapper `new webpack.LoaderOptionsPlugin(...)`;
`styleguidist` is the embedded style guide configuration. -/
def loaderOptionsPlugin (isProd : Bool) (styleguidist : JsVal) : JsVal :=
  inst "webpack.LoaderOptionsPlugin"
    [("minimize", bool isProd), ("debug", bool !isProd),
     ("options", obj [("styleguidist", styleguidist)])]

/-- The module-ordering plugin `new webpack.optimize.OccurrenceOrderPlugin()`. -/
def occurrenceOrderPlugin : JsVal := inst "webpack.optimize.OccurrenceOrderPlugin" []

/-- The minifier plugin `new webpack.optimize.UglifyJsPlugin(...)`. -/
def uglifyJsPlugin : JsVal :=
  inst "webpack.optimize.UglifyJsPlugin"
    [("compress", obj [("keep_fnames", bool true), ("screw_ie8", bool true),
                       ("warnings", bool false)]),
     ("output", obj [("comments", bool false)]),
     ("mangle", obj [("keep_fnames", bool true)])]

/-- The plugin `new webpack.optimize.DedupePlugin()`. -/
def dedupePlugin : JsVal := inst "webpack.optimize.DedupePlugin" []

/-- The plugin `new webpack.HotModuleReplacementPlugin()`. -/
def hotModuleReplacementPlugin : JsVal := inst "webpack.HotModuleReplacementPlugin" []

/-- The rule pushed when the configuration has no JSON loader; the pattern
`/\.json$/` accepts the names that end in `.json`. -/
def jsonLoaderRule : JsVal :=
  obj [("test", regexp (fun name => ".json".toList.isSuffixOf name.toList)),
       ("loader", str "json-loader")]

/-- `array.push(x)` on the value of a property. -/
def push (array : Option JsVal) (x : JsVal) : Except JsError JsVal :=
  match array with
  | some (arr items) => .ok (arr (items ++ [x]))
  | _ => .error "TypeError: push is not a function"

/-- The initial `webpackConfig` literal. -/
def baseConfig (config : GuideConfig) (env : String) : JsVal :=
  obj [("entry", arr []),
       ("output", coreOutput config),
       ("resolve", obj [("alias", obj [("rsg-codemirror-theme.css",
          str ("codemirror/theme/" ++ config.highlightTheme ++ ".css"))])]),
       ("plugins", arr [htmlWebpackPlugin config, definePlugin env]),
       ("module", obj [("loaders", arr [])])]

/-- The array `loaderModulesDirectories`. -/
def loaderModulesDirectories (host : Host) : JsVal :=
  arr [str host.loadersDir, str "node_modules"]

/-- The configuration after the `if (isWebpack2) ... else ...` block;
`styleguidist` is the value stored for `config`. -/
def shapeConfig (host : Host) (webpack2 : Bool) (config : GuideConfig) (styleguidist : JsVal)
    (env : String) : JsVal :=
  let isProd := env == "production"
  if webpack2 then
    merge (baseConfig config env)
      (obj [("resolve", obj [("extensions", arr [str ".js", str ".jsx", str ".json"]),
                             ("modules", arr [str host.sourceDir, str "node_modules"])]),
            ("resolveLoader", obj [("modules", loaderModulesDirectories host)]),
            ("plugins", arr [loaderOptionsPlugin isProd styleguidist])])
  else
    merge (baseConfig config env)
      (obj [("styleguidist", styleguidist),
            ("resolve", obj [("extensions", arr [str ".js", str ".jsx", str ".json", str ""]),
                             ("root", str host.sourceDir),
                             ("moduleDirectories", arr [str "node_modules"])]),
            ("resolveLoader", obj [("modulesDirectories", loaderModulesDirectories host)]),
            ("debug", bool !isProd)])

/-- Assignment `o.k = v`. -/
def assign (o : JsVal) (k : String) (v : JsVal) : JsVal :=
  match o with
  | obj fields => obj (setField k v fields)
  | other => other

/-- The statement `o.k.push(x)`: the array under `k` gains `x` as its last
element. -/
def pushProp (o : Option JsVal) (k : String) (x : JsVal) : Except JsError JsVal := do
  let array ← getProp o k
  let array ← push array x
  match o with
  | some o => pure (assign o k array)
  | none => throw "TypeError"

/-- The configuration after the `if (isProd) ... else ...` block. -/
def envConfig (host : Host) (webpack2 : Bool) (config : GuideConfig) (styleguidist : JsVal)
    (env : String) : Except JsError JsVal :=
  let isProd := env == "production"
  let webpackConfig := shapeConfig host webpack2 config styleguidist env
  if isProd then
    let webpackConfig := merge webpackConfig
      (obj [("devtool", bool false),
            ("cache", bool false),
            ("plugins", arr [occurrenceOrderPlugin, uglifyJsPlugin])])
    if !webpack2 then pushProp (some webpackConfig) "plugins" dedupePlugin
    else pure webpackConfig
  else
    pure (merge webpackConfig
      (obj [("entry", arr [str host.hotDevClient]),
            ("cache", bool true),
            ("devtool", str "eval"),
            ("stats", obj [("colors", bool true), ("reasons", bool true)]),
            ("plugins", arr [hotModuleReplacementPlugin])]))

/-- The value of `userConfig`: the `webpackConfig` option itself, or what it
returns for the environment name when it is a function; `none` when the option
is not set. -/
def userConfig (config : GuideConfig) (env : String) : Except JsError (Option Fields) :=
  match config.webpackConfig with
  | none => pure none
  | some (.value fields) => pure (some fields)
  | some (.function f) => do
    let fields ← f env
    pure (some fields)

/-- The keys that `omit` removes from the user's configuration. -/
def protectedKeys : List String := ["output", "resolveLoader", "styleguidist"]

/-- The configuration after the `if (config.webpackConfig)` block. -/
def userMerge (webpackConfig : JsVal) (config : GuideConfig) (env : String) :
    Except JsError JsVal := do
  match ← userConfig config env with
  | none => pure webpackConfig
  | some userConfig =>
    let safeUserConfig := omitKeys userConfig protectedKeys
    pure (merge webpackConfig (obj safeUserConfig))

/-- The statement `if (!hasJsonLoader(webpackConfig)) webpackConfig.module.loaders.push(...)`. -/
def addJsonLoader (webpackConfig : JsVal) : Except JsError JsVal := do
  if !(← hasJsonLoader webpackConfig) then
    let module ← getProp (some webpackConfig) "module"
    let module ← pushProp module "loaders" jsonLoaderRule
    pure (assign webpackConfig "module" module)
  else pure webpackConfig

/-- The statement `webpackConfig.entry.push(path.resolve(sourceDir, 'index'))`. -/
def addEntry (host : Host) (webpackConfig : JsVal) : Except JsError JsVal :=
  pushProp (some webpackConfig) "entry" (str (indexEntry host))

/-- The configuration that reaches the `if (config.updateWebpackConfig)`
statement; `styleguidist` is the value stored for `config`. -/
def normalizedWith (host : Host) (webpack2 : Bool) (config : GuideConfig) (styleguidist : JsVal)
    (env : String) : Except JsError JsVal := do
  let webpackConfig ← envConfig host webpack2 config styleguidist env
  let webpackConfig ← userMerge webpackConfig config env
  let webpackConfig ← addJsonLoader webpackConfig
  addEntry host webpackConfig

/-- The configuration that reaches the `if (config.updateWebpackConfig)`
statement. -/
def normalized (host : Host) (webpack2 : Bool) (config : GuideConfig) (env : String) :
    Except JsError JsVal :=
  normalizedWith host webpack2 config config.toJs env

/-- Translation of the exported function.  Setting `process.env.NODE_ENV` and
the `verbose` printout do not change the returned value and are left out. -/
def buildConfig (host : Host) (webpack2 : Bool) (config : GuideConfig) (env : String) :
    Except JsError JsVal := do
  let webpackConfig ← normalized host webpack2 config env
  match config.updateWebpackConfig with
  | some updateWebpackConfig => updateWebpackConfig.run webpackConfig env
  | none => pure webpackConfig

/-- Property `k` of a returned configuration. -/
def field (r : JsVal) (k : String) : Option JsVal :=
  match r with
  | obj fields => lookup k fields
  | _ => none

/-- Property `k` of a configuration when it holds a sequence. -/
def seqField (r : JsVal) (k : String) : Option (List JsVal) :=
  match field r k with
  | some (arr items) => some items
  | _ => none

/-- The sequence `module.loaders` of a configuration. -/
def loadersOf (r : JsVal) : Option (List JsVal) :=
  match field r "module" with
  | some module => seqField module "loaders"
  | none => none

/-- The user's value for the sequence field `k`: empty when the field is
absent, undefined when the field holds something other than a sequence. -/
def userSeq (u : Fields) (k : String) : Option (List JsVal) :=
  match lookup k u with
  | none => some []
  | some (arr items) => some items
  | some _ => none

/-- The user's `module.loaders` sequence: empty when `module` or
`module.loaders` is absent. -/
def userLoaders (u : Fields) : Option (List JsVal) :=
  match lookup "module" u with
  | none => some []
  | some (obj module) => userSeq module "loaders"
  | some _ => none

/-- What the merge leaves under a key that holds `a` on the left and `b` on the
right. -/
def combine (a b : Option JsVal) : Option JsVal :=
  match a, b with
  | some x, some v => some (merge x v)
  | some x, none => some x
  | none, v => v

/-- The user's value under `k` after the protected keys are removed. -/
def safeLookup (k : String) (u : Fields) : Option JsVal :=
  if k ∈ protectedKeys then none else lookup k u

/-! ## The probe in the words of the specification -/

/-- What probing one matcher with `test.json` gives. -/
inductive Verdict where
  | accepts
  | rejects
  | raises (e : JsError)
  deriving DecidableEq

/-- The falsy values: `null`, `false`, `0` and the empty string. -/
def falsy (v : JsVal) : Bool :=
  match v with
  | null => true
  | .bool b => b == false
  | num n => n == 0
  | str s => s == ""
  | _ => false

/-- The verdict of one matcher: a pattern accepts when it matches `test.json`;
a predicate accepts when it returns a value that is not falsy, and raises what
it throws; anything else rejects. -/
def verdict (matcher : Option JsVal) : Verdict :=
  match matcher with
  | some (regexp test) => if test "test.json" then .accepts else .rejects
  | some (func call) =>
    match call "test.json" with
    | .ok v => if falsy v then .rejects else .accepts
    | .error e => .raises e
  | _ => .rejects

/-- The matchers that a `test` value stands for: each element when it is a
list, the value itself otherwise. -/
def matchersOfTest (test : Option JsVal) : List (Option JsVal) :=
  match test with
  | some (arr matchers) => matchers.map some
  | single => [single]

/-- The matchers of a rule.  A rule that is itself a pattern has for `test` the
method it inherits, taken off the pattern. -/
def ruleMatchers (rule : JsVal) : List (Option JsVal) :=
  match rule with
  | obj fields => matchersOfTest (lookup "test" fields)
  | regexp _ => [some regExpPrototypeTest]
  | _ => [none]

/-- The verdicts that probing a rule meets, in order; reading `test` off `null`
raises. -/
def ruleVerdicts (rule : JsVal) : List Verdict :=
  match rule with
  | null => [.raises "TypeError: Cannot read property test of null"]
  | _ => (ruleMatchers rule).map verdict

/-- The verdicts that probing the rules meets, rule after rule. -/
def verdictsOf : List JsVal → List Verdict
  | [] => []
  | rule :: rest => ruleVerdicts rule ++ verdictsOf rest

/-- Left to right: true at the first verdict that accepts, the error of the
first that raises, false when the verdicts end. -/
def scan : List Verdict → Except JsError Bool
  | [] => .ok false
  | .accepts :: _ => .ok true
  | .rejects :: rest => scan rest
  | .raises e :: _ => .error e

/-- Whether some matcher of a rule accepts the probe. -/
def ruleAccepts (rule : JsVal) : Bool :=
  (ruleMatchers rule).any (fun matcher => verdict matcher == .accepts)

/-- The default JSON rule `{test: /\.json$/, loader: 'json-loader'}`: its
pattern matches exactly the names that end in `.json`. -/
def IsDefaultJsonRule (rule : JsVal) : Prop :=
  ∃ test, rule = obj [("test", regexp test), ("loader", str "json-loader")] ∧
    ∀ name : String, test name = true ↔ ∃ stem : String, name = stem ++ ".json"

/-! ## Descriptions of the result, used in the statements -/

/-- The entry sequence before the user merge. -/
def coreEntry (host : Host) (env : String) : List JsVal :=
  if env == "production" then [] else [str host.hotDevClient]

/-- The plugin sequence before the user merge, written out. -/
def corePlugins (webpack2 : Bool) (config : GuideConfig) (styleguidist : JsVal) (env : String) :
    List JsVal :=
  [inst "HtmlWebpackPlugin"
     [("title", str config.title), ("template", str config.template), ("inject", bool true)],
   inst "webpack.DefinePlugin"
     [("process.env", obj [("NODE_ENV", str (jsonStringify env))])]] ++
  (if webpack2 then
    [inst "webpack.LoaderOptionsPlugin"
       [("minimize", bool (env == "production")), ("debug", bool !(env == "production")),
        ("options", obj [("styleguidist", styleguidist)])]]
   else []) ++
  (if env == "production" then
    [inst "webpack.optimize.OccurrenceOrderPlugin" [],
     inst "webpack.optimize.UglifyJsPlugin"
       [("compress", obj [("keep_fnames", bool true), ("screw_ie8", bool true),
                          ("warnings", bool false)]),
        ("output", obj [("comments", bool false)]),
        ("mangle", obj [("keep_fnames", bool true)])]] ++
    (if webpack2 then [] else [inst "webpack.optimize.DedupePlugin" []])
  else [inst "webpack.HotModuleReplacementPlugin" []])

/-- The `resolve` object before the user merge, written out. -/
def coreResolve (host : Host) (webpack2 : Bool) (config : GuideConfig) : JsVal :=
  obj ([("alias", obj [("rsg-codemirror-theme.css",
          str ("codemirror/theme/" ++ config.highlightTheme ++ ".css"))])] ++
    if webpack2 then
      [("extensions", arr [str ".js", str ".jsx", str ".json"]),
       ("modules", arr [str host.sourceDir, str "node_modules"])]
    else
      [("extensions", arr [str ".js", str ".jsx", str ".json", str ""]),
       ("root", str host.sourceDir),
       ("moduleDirectories", arr [str "node_modules"])])

/-- The `resolveLoader` object before the user merge, written out. -/
def coreResolveLoader (host : Host) (webpack2 : Bool) : JsVal :=
  obj [(if webpack2 then "modules" else "modulesDirectories",
        arr [str host.loadersDir, str "node_modules"])]

/-- The fields of the configuration before the user merge, written out. -/
def coreFields (host : Host) (webpack2 : Bool) (config : GuideConfig) (styleguidist : JsVal)
    (env : String) : Fields :=
  [("entry", arr (coreEntry host env)),
   ("output", obj [("path", str config.styleguideDir), ("filename", str "build/bundle.js"),
      ("chunkFilename", str "build/[name].js")]),
   ("resolve", coreResolve host webpack2 config),
   ("plugins", arr (corePlugins webpack2 config styleguidist env)),
   ("module", obj [("loaders", arr [])])] ++
  (if webpack2 then [] else [("styleguidist", styleguidist)]) ++
  [("resolveLoader", coreResolveLoader host webpack2)] ++
  (if webpack2 then [] else [("debug", bool !(env == "production"))]) ++
  (if env == "production" then [("devtool", bool false), ("cache", bool false)]
   else [("cache", bool true), ("devtool", str "eval"),
         ("stats", obj [("colors", bool true), ("reasons", bool true)])])

/-- The value under `k` after the user merge. -/
def merged (host : Host) (webpack2 : Bool) (config : GuideConfig) (styleguidist : JsVal)
    (env : String) (u : Fields) (k : String) : Option JsVal :=
  combine (lookup k (coreFields host webpack2 config styleguidist env)) (safeLookup k u)

/-- Property `k` of the value of a property, when that value is a plain object. -/
def sub (v : Option JsVal) (k : String) : Option JsVal :=
  match v with
  | some (obj fields) => lookup k fields
  | _ => none

/-- Whether a value is a scalar: `null`, a boolean, a number or a string. -/
def isScalar : JsVal → Bool
  | null => true
  | .bool _ => true
  | num _ => true
  | str _ => true
  | _ => false

/-! ## Example inputs -/

/-- An installation. -/
def exHost : Host := ⟨"/pkg/lib", "/pkg/loaders", "/nm/react-dev-utils/webpackHotDevClient.js"⟩

/-- A style guide configuration with no user webpack configuration. -/
def exGuide : GuideConfig := ⟨"Guide", "t.html", "/out", "eclipse", none, none, false, []⟩

/-- A rule for style sheets; its pattern `/\.css$/` rejects the probe. -/
def exCssRule : JsVal :=
  obj [("test", regexp (fun name => ".css".toList.isSuffixOf name.toList)),
       ("loader", str "css-loader")]

/-- A user webpack configuration that sets protected and unprotected keys. -/
def exUser : Fields :=
  [("entry", arr [str "polyfill.js"]),
   ("devtool", str "source-map"),
   ("output", obj [("path", str "/elsewhere")]),
   ("module", obj [("loaders", arr [exCssRule])])]

/-- A style guide configuration whose user webpack configuration is a value. -/
def exGuideUser : GuideConfig := { exGuide with webpackConfig := some (.value exUser) }

/-- A style guide configuration whose user webpack configuration is a function. -/
def exGuideFn : GuideConfig :=
  { exGuide with webpackConfig := some (.function fun env =>
      .ok [("entry", arr [str (env ++ ".js")]), ("output", str "dist")]) }

/-- A rule for JSON files whose matcher is a predicate. -/
def exJsonRule : JsVal :=
  obj [("test", func (fun name => .ok (bool (name == "test.json")))),
       ("loader", str "my-json-loader")]

/-- The guide configuration `exGuideUser` as a JavaScript object, written out. -/
def exGuideUserJs : JsVal :=
  obj [("title", str "Guide"), ("template", str "t.html"), ("styleguideDir", str "/out"),
       ("highlightTheme", str "eclipse"), ("verbose", bool false),
       ("webpackConfig", obj exUser)]

/-- What `buildConfig` returns for `exGuideUser` in development, Modern shape. -/
def exModernDev : JsVal :=
  obj [("entry", arr [str "/nm/react-dev-utils/webpackHotDevClient.js", str "polyfill.js",
          str "/pkg/lib/index"]),
       ("output", obj [("path", str "/out"), ("filename", str "build/bundle.js"),
          ("chunkFilename", str "build/[name].js")]),
       ("resolve", obj [("alias", obj [("rsg-codemirror-theme.css",
            str "codemirror/theme/eclipse.css")]),
          ("extensions", arr [str ".js", str ".jsx", str ".json"]),
          ("modules", arr [str "/pkg/lib", str "node_modules"])]),
       ("plugins", arr [
          inst "HtmlWebpackPlugin"
            [("title", str "Guide"), ("template", str "t.html"), ("inject", bool true)],
          inst "webpack.DefinePlugin"
            [("process.env", obj [("NODE_ENV", str "\"development\"")])],
          inst "webpack.LoaderOptionsPlugin"
            [("minimize", bool false), ("debug", bool true),
             ("options", obj [("styleguidist", exGuideUserJs)])],
          inst "webpack.HotModuleReplacementPlugin" []]),
       ("module", obj [("loaders", arr [exCssRule,
          obj [("test", regexp (fun name => ".json".toList.isSuffixOf name.toList)),
               ("loader", str "json-loader")]])]),
       ("resolveLoader", obj [("modules", arr [str "/pkg/loaders", str "node_modules"])]),
       ("cache", bool true),
       ("devtool", str "source-map"),
       ("stats", obj [("colors", bool true), ("reasons", bool true)])]

/-- What `buildConfig` returns for `exGuideUser` in production, Legacy shape. -/
def exLegacyProd : JsVal :=
  obj [("entry", arr [str "polyfill.js", str "/pkg/lib/index"]),
       ("output", obj [("path", str "/out"), ("filename", str "build/bundle.js"),
          ("chunkFilename", str "build/[name].js")]),
       ("resolve", obj [("alias", obj [("rsg-codemirror-theme.css",
            str "codemirror/theme/eclipse.css")]),
          ("extensions", arr [str ".js", str ".jsx", str ".json", str ""]),
          ("root", str "/pkg/lib"),
          ("moduleDirectories", arr [str "node_modules"])]),
       ("plugins", arr [
          inst "HtmlWebpackPlugin"
            [("title", str "Guide"), ("template", str "t.html"), ("inject", bool true)],
          inst "webpack.DefinePlugin"
            [("process.env", obj [("NODE_ENV", str "\"production\"")])],
          inst "webpack.optimize.OccurrenceOrderPlugin" [],
          inst "webpack.optimize.UglifyJsPlugin"
            [("compress", obj [("keep_fnames", bool true), ("screw_ie8", bool true),
                               ("warnings", bool false)]),
             ("output", obj [("comments", bool false)]),
             ("mangle", obj [("keep_fnames", bool true)])],
          inst "webpack.optimize.DedupePlugin" []]),
       ("module", obj [("loaders", arr [exCssRule,
          obj [("test", regexp (fun name => ".json".toList.isSuffixOf name.toList)),
               ("loader", str "json-loader")]])]),
       ("styleguidist", exGuideUserJs),
       ("resolveLoader",
          obj [("modulesDirectories", arr [str "/pkg/loaders", str "node_modules"])]),
       ("debug", bool false),
       ("devtool", str "source-map"),
       ("cache", bool false)]

/-- What `buildConfig` returns for `exGuideUser` in development, Legacy shape. -/
def exLegacyDev : JsVal :=
  obj [("entry", arr [str "/nm/react-dev-utils/webpackHotDevClient.js", str "polyfill.js",
          str "/pkg/lib/index"]),
       ("output", obj [("path", str "/out"), ("filename", str "build/bundle.js"),
          ("chunkFilename", str "build/[name].js")]),
       ("resolve", obj [("alias", obj [("rsg-codemirror-theme.css",
            str "codemirror/theme/eclipse.css")]),
          ("extensions", arr [str ".js", str ".jsx", str ".json", str ""]),
          ("root", str "/pkg/lib"),
          ("moduleDirectories", arr [str "node_modules"])]),
       ("plugins", arr [
          inst "HtmlWebpackPlugin"
            [("title", str "Guide"), ("template", str "t.html"), ("inject", bool true)],
          inst "webpack.DefinePlugin"
            [("process.env", obj [("NODE_ENV", str "\"development\"")])],
          inst "webpack.HotModuleReplacementPlugin" []]),
       ("module", obj [("loaders", arr [exCssRule,
          obj [("test", regexp (fun name => ".json".toList.isSuffixOf name.toList)),
               ("loader", str "json-loader")]])]),
       ("styleguidist", exGuideUserJs),
       ("resolveLoader",
          obj [("modulesDirectories", arr [str "/pkg/loaders", str "node_modules"])]),
       ("debug", bool true),
       ("cache", bool true),
       ("devtool", str "source-map"),
       ("stats", obj [("colors", bool true), ("reasons", bool true)])]

/-- A style guide configuration whose user sets only `output`, to `a`. -/
def exGuideOutA : GuideConfig :=
  { exGuide with webpackConfig := some (.value [("output", str "a")]) }

/-- A style guide configuration whose user sets only `output`, to `b`. -/
def exGuideOutB : GuideConfig :=
  { exGuide with webpackConfig := some (.value [("output", str "b")]) }

/-- The user's `output` as the result of `buildConfig` holds it inside the
embedded style guide configuration: under `styleguidist` at top level (Legacy)
or under the options of the loader-options plugin, the third plugin (Modern). -/
def embeddedUserOutput (x : Except JsError JsVal) : Option JsVal :=
  match x with
  | .ok r =>
    let guide := match field r "styleguidist", seqField r "plugins" with
      | some g, _ => some g
      | none, some (_ :: _ :: inst _ options :: _) =>
        (match lookup "options" options with
         | some o => field o "styleguidist"
         | none => none)
      | _, _ => none
    match guide with
    | some g =>
      (match field g "webpackConfig" with
       | some w => field w "output"
       | none => none)
    | none => none
  | .error _ => none

/-- Whether a value is an instance of the class `cls`. -/
def isInstanceOf (cls : String) : JsVal → Bool
  | inst c _ => c == cls
  | _ => false

/-- A style guide configuration whose user sets fields of the Legacy shape. -/
def exGuideDebug : GuideConfig :=
  { exGuide with webpackConfig := some (.value
      [("debug", bool true), ("resolve", obj [("root", str "/src")])]) }

/-- A style guide configuration whose user brings the hot-reload client and the
hot-module-replacement plugin. -/
def exGuideHot : GuideConfig :=
  { exGuide with webpackConfig := some (.value
      [("entry", arr [str "/nm/react-dev-utils/webpackHotDevClient.js"]),
       ("plugins", arr [inst "webpack.HotModuleReplacementPlugin" []])]) }

/-- A post-processing hook that keeps only the entry sequence and records the
environment name. -/
def exHook : Hook where
  run := fun webpackConfig env =>
    .ok (obj [("entry", (field webpackConfig "entry").getD null), ("env", str env)])
  onString := fun _ => .ok (obj [("entry", null), ("env", null)])

/-- A style guide configuration with a post-processing hook. -/
def exGuideHook : GuideConfig := { exGuideUser with updateWebpackConfig := some exHook }

/-- A post-processing hook that reports whether the guide configuration
embedded in the configuration it receives has a post-processing hook. -/
def exHookProbe : Hook where
  run := fun webpackConfig _ =>
    .ok (match field webpackConfig "styleguidist" with
      | some guide =>
        (match field guide "updateWebpackConfig" with
         | some _ => str "hook present"
         | none => str "hook absent")
      | none => str "no guide")
  onString := fun _ => .ok (str "no guide")

/-- A style guide configuration with the reporting hook. -/
def exGuideHookProbe : GuideConfig := { exGuide with updateWebpackConfig := some exHookProbe }

/-- A rule whose matcher is a predicate that throws on every file name. -/
def exThrowRule : JsVal :=
  obj [("test", func (fun _ => .error "boom")), ("loader", str "x-loader")]

/-- A user webpack configuration whose only rule throws when probed. -/
def exUserThrow : Fields :=
  [("module", obj [("loaders", arr [exThrowRule])])]

/-- A style guide configuration whose user brings the throwing rule. -/
def exGuideThrow : GuideConfig := { exGuide with webpackConfig := some (.value exUserThrow) }

/-- A style guide configuration whose user webpack configuration is a function
that throws. -/
def exGuideFnThrow : GuideConfig :=
  { exGuide with webpackConfig := some (.function fun _ => .error "no config") }

/-- A style guide configuration whose user sets the keys `resolveLoader` and
`styleguidist`. -/
def exGuideProtected : GuideConfig :=
  { exGuide with webpackConfig := some (.value
      [("resolveLoader", obj [("modules", arr [str "/elsewhere"])]),
       ("styleguidist", str "mine")]) }

/-- A configuration that holds nothing but the loaders `L`. -/
def exLoadersConfig (L : List JsVal) : JsVal :=
  obj [("module", obj [("loaders", arr L)])]

/-- A rule whose `test` is a list of two patterns, the second for JSON files. -/
def exListRule : JsVal :=
  obj [("test", arr [regexp (fun name => ".css".toList.isSuffixOf name.toList),
                     regexp (fun name => ".json".toList.isSuffixOf name.toList)]),
       ("loader", str "multi-loader")]

/-- A style guide configuration whose user brings the rule with a list. -/
def exGuideList : GuideConfig :=
  { exGuide with webpackConfig := some (.value
      [("module", obj [("loaders", arr [exListRule])])]) }

/-- A rule whose matcher is a predicate that returns `false` for every name. -/
def exFalseRule : JsVal :=
  obj [("test", func (fun _ => .ok (bool false))), ("loader", str "never-loader")]

/-- A style guide configuration whose user brings the rule that never matches. -/
def exGuideFalse : GuideConfig :=
  { exGuide with webpackConfig := some (.value
      [("module", obj [("loaders", arr [exFalseRule])])]) }

/-- A rule with an accepting pattern followed by a predicate that throws. -/
def exAcceptThenThrowRule : JsVal :=
  obj [("test", arr [regexp (fun name => ".json".toList.isSuffixOf name.toList),
                     func (fun _ => .error "boom")]),
       ("loader", str "y-loader")]

/-! ## Descriptions used in the statements on the embedded guide and the hook -/

/-- A configuration with its embedded copy of the guide configuration replaced
by `guide`: in the Legacy shape the top-level field `styleguidist`; in the
Modern shape `options.styleguidist` of the third plugin, the loader-options
wrapper. -/
def storeGuide (webpack2 : Bool) (guide : JsVal) (r : JsVal) : JsVal :=
  if webpack2 then
    match field r "plugins" with
    | some (arr (p0 :: p1 :: inst "webpack.LoaderOptionsPlugin" fields :: rest)) =>
      assign r "plugins" (arr (p0 :: p1 ::
        inst "webpack.LoaderOptionsPlugin"
          (setField "options" (obj [("styleguidist", guide)]) fields) :: rest))
    | _ => r
  else assign r "styleguidist" guide

/-- The exported function together with the calls of `updateWebpackConfig` that
it makes, each with its two arguments; line 190 is the only call, reached when
lines 46 to 187 raise no error. -/
def buildConfigCalls (host : Host) (webpack2 : Bool) (config : GuideConfig) (env : String) :
    Except JsError JsVal × List (JsVal × String) :=
  match normalized host webpack2 config env with
  | .error e => (.error e, [])
  | .ok webpackConfig =>
    match config.updateWebpackConfig with
    | some updateWebpackConfig =>
      (updateWebpackConfig.run webpackConfig env, [(webpackConfig, env)])
    | none => (.ok webpackConfig, [])

/-- Lines 166 to 187 on a given accumulated configuration. -/
def finish (host : Host) (config : GuideConfig) (env : String) (acc : JsVal) :
    Except JsError JsVal := do
  let webpackConfig ← userMerge acc config env
  let webpackConfig ← addJsonLoader webpackConfig
  addEntry host webpackConfig

/-! ## Lemmas on plain objects -/

theorem lookup_append (k : String) (x y : Fields) :
    lookup k (x ++ y) = match lookup k x with
      | some v => some v
      | none => lookup k y := by
  induction x with
  | nil => simp [lookup]
  | cons p rest ih =>
    obtain ⟨k', v⟩ := p
    by_cases h : k' = k <;> simp [lookup, h, ih]

theorem lookup_mergeFields (k : String) (a b : Fields) :
    lookup k (mergeFields a b) = match lookup k a with
      | some x => some (match lookup k b with
          | some v => merge x v
          | none => x)
      | none => none := by
  induction a with
  | nil => simp [lookup, mergeFields]
  | cons p rest ih =>
    obtain ⟨k', v⟩ := p
    by_cases h : k' = k
    · subst h; simp [lookup, mergeFields]
    · simp [lookup, mergeFields, h, ih]

theorem lookup_filter (k : String) (q : String → Bool) (b : Fields) :
    lookup k (b.filter (fun p => q p.1)) = if q k then lookup k b else none := by
  induction b with
  | nil => simp [lookup]
  | cons p rest ih =>
    obtain ⟨k', v⟩ := p
    by_cases h : k' = k
    · subst h
      by_cases hq : q k' <;> simp [lookup, List.filter_cons, hq, ih]
    · by_cases hq : q k' <;> simp [lookup, List.filter_cons, hq, ih, h]

/-- Property `k` of a merge of two plain objects. -/
theorem field_merge (k : String) (a b : Fields) :
    field (merge (obj a) (obj b)) k = match lookup k a, lookup k b with
      | some x, some v => some (merge x v)
      | some x, none => some x
      | none, v => v := by
  have hf := lookup_filter k (fun key => (lookup key a).isNone) b
  simp only [field, merge, lookup_append, lookup_mergeFields, hf]
  cases ha : lookup k a <;> cases hb : lookup k b <;> simp

theorem lookup_omitKeys (k : String) (u : Fields) (keys : List String) :
    lookup k (omitKeys u keys) = if k ∈ keys then none else lookup k u := by
  have h := lookup_filter k (fun key => !keys.contains key) u
  simp only [omitKeys, h]
  by_cases hk : k ∈ keys <;> simp [hk]

theorem lookup_setField (k k' : String) (v : JsVal) (fs : Fields) :
    lookup k (setField k' v fs) = if k = k' then some v else lookup k fs := by
  induction fs with
  | nil =>
    by_cases h : k = k'
    · subst h; simp [lookup, setField]
    · have h' : ¬ k' = k := fun e => h e.symm
      simp [lookup, setField, h, h']
  | cons p rest ih =>
    obtain ⟨k0, v0⟩ := p
    by_cases h0 : k0 = k'
    · subst h0
      by_cases h : k0 = k
      · subst h; simp [lookup, setField]
      · have h' : ¬ k = k0 := fun e => h e.symm
        simp [lookup, setField, h, h']
    · by_cases h : k0 = k
      · subst h; simp [lookup, setField, h0]
      · simp [lookup, setField, h0, h, ih]

/-! ## The configuration before the user merge -/

theorem envConfig_eq (host : Host) (webpack2 : Bool) (config : GuideConfig) (styleguidist : JsVal)
    (env : String) :
    envConfig host webpack2 config styleguidist env
      = .ok (obj (coreFields host webpack2 config styleguidist env)) := by
  cases webpack2 <;> cases h : (env == "production") <;>
    simp only [envConfig, shapeConfig, h, coreFields, corePlugins, coreEntry, coreResolve,
      coreResolveLoader, Bool.false_eq_true, if_false, if_true, Bool.not_false, Bool.not_true] <;>
    rfl

/-! ## The steps after the environment overlay -/

theorem field_assign (o : JsVal) (k k' : String) (v : JsVal) (h : k ≠ k') :
    field (assign o k' v) k = field o k := by
  cases o <;> simp [assign, field, lookup_setField, h]

theorem userMerge_ok (acc : Fields) (config : GuideConfig) (env : String) (r : JsVal)
    (h : userMerge (obj acc) config env = .ok r) :
    ∃ uo, userConfig config env = .ok uo ∧
      ∀ k, field r k = combine (lookup k acc) (safeLookup k (uo.getD [])) := by
  simp only [userMerge, bind, Except.bind] at h
  cases hu : userConfig config env with
  | error e => simp [hu] at h
  | ok uo =>
    refine ⟨uo, rfl, fun k => ?_⟩
    cases uo with
    | none =>
      simp only [hu, pure, Except.pure, Except.ok.injEq] at h
      subst h
      cases hk : lookup k acc <;> simp [field, combine, safeLookup, lookup, hk]
    | some u =>
      simp only [hu, pure, Except.pure, Except.ok.injEq] at h
      subst h
      rw [field_merge, lookup_omitKeys]
      simp only [combine, safeLookup, Option.getD]

theorem getProp_ok (c : JsVal) (k : String) (x : Option JsVal) (hk : k ≠ "test")
    (h : getProp (some c) k = .ok x) : x = field c k := by
  cases c <;> simp_all [getProp, field]

theorem getProp_of_field (c : JsVal) (k : String) (v : JsVal) (h : field c k = some v) :
    getProp (some c) k = .ok (some v) := by
  cases c <;> simp_all [getProp, field]

theorem field_assign_same (c : JsVal) (k : String) (v x : JsVal) (h : field c k = some x) :
    field (assign c k v) k = some v := by
  cases c <;> simp_all [assign, field, lookup_setField]

theorem push_ok (a : Option JsVal) (x r : JsVal) (h : push a x = .ok r) :
    ∃ E, a = some (arr E) ∧ r = arr (E ++ [x]) := by
  cases a with
  | none => simp [push] at h
  | some v =>
    cases v <;> simp_all [push]

theorem pushProp_ok (c : JsVal) (k : String) (x r : JsVal) (hk : k ≠ "test")
    (h : pushProp (some c) k x = .ok r) :
    ∃ E, field c k = some (arr E) ∧ r = assign c k (arr (E ++ [x])) := by
  simp only [pushProp, bind, Except.bind] at h
  cases hg : getProp (some c) k with
  | error e => simp [hg] at h
  | ok a =>
    have ha := getProp_ok c k a hk hg
    simp only [hg] at h
    cases hp : push a x with
    | error e => simp [hp] at h
    | ok a' =>
      obtain ⟨E, hE, ha'⟩ := push_ok a x a' hp
      simp only [hp, pure, Except.pure, Except.ok.injEq] at h
      subst h
      subst ha'
      exact ⟨E, by rw [← ha, hE], rfl⟩

theorem pushProp_of_field (c : JsVal) (k : String) (x : JsVal) (E : List JsVal)
    (h : field c k = some (arr E)) :
    pushProp (some c) k x = .ok (assign c k (arr (E ++ [x]))) := by
  simp [pushProp, getProp_of_field c k _ h, push, bind, Except.bind, pure, Except.pure]

theorem seqField_iff (c : JsVal) (k : String) (A : List JsVal) :
    seqField c k = some A ↔ field c k = some (arr A) := by
  simp only [seqField]
  cases hf : field c k with
  | none => simp
  | some v => cases v <;> simp

theorem addEntry_ok (host : Host) (c r : JsVal) (h : addEntry host c = .ok r) :
    ∃ E, seqField c "entry" = some E ∧ seqField r "entry" = some (E ++ [str (indexEntry host)]) ∧
      ∀ k, k ≠ "entry" → field r k = field c k := by
  obtain ⟨E, hE, hr⟩ := pushProp_ok c "entry" _ r (by decide) h
  subst hr
  refine ⟨E, (seqField_iff _ _ _).mpr hE, ?_, fun k hk => field_assign _ _ _ _ hk⟩
  exact (seqField_iff _ _ _).mpr (field_assign_same _ _ _ _ hE)

/-- What `hasJsonLoader` reads: the loaders, when they are a sequence. -/
theorem hasJsonLoader_cases (c : JsVal) :
    (∃ L, loadersOf c = some L ∧ hasJsonLoader c = reduceLoaders false L) ∨
    (∃ e, hasJsonLoader c = .error e) := by
  simp only [hasJsonLoader, loadersOf]
  cases hg : getProp (some c) "module" with
  | error e => exact Or.inr ⟨e, rfl⟩
  | ok m =>
    have hm := getProp_ok c "module" m (by decide) hg
    cases m with
    | none => exact Or.inr ⟨_, rfl⟩
    | some mv =>
      cases hl : getProp (some mv) "loaders" with
      | error e => exact Or.inr ⟨e, by simp [hl]⟩
      | ok l =>
        have hl' := getProp_ok mv "loaders" l (by decide) hl
        cases l with
        | none =>
          exact Or.inr ⟨"TypeError: webpackConfig.module.loaders.reduce is not a function",
            by simp [hl]⟩
        | some lv =>
          cases lv with
          | arr L =>
            refine Or.inl ⟨L, ?_, by simp [hl]⟩
            rw [← hm]
            exact (seqField_iff _ _ _).mpr hl'.symm
          | _ =>
            exact Or.inr ⟨"TypeError: webpackConfig.module.loaders.reduce is not a function",
              by simp [hl]⟩

theorem hasJsonLoader_of_loaders (c : JsVal) (L : List JsVal) (h : loadersOf c = some L) :
    hasJsonLoader c = reduceLoaders false L := by
  simp only [loadersOf] at h
  cases hm : field c "module" with
  | none => simp [hm] at h
  | some mv =>
    simp only [hm] at h
    have hl := (seqField_iff _ _ _).mp h
    simp [hasJsonLoader, getProp_of_field c "module" mv hm, getProp_of_field mv "loaders" _ hl]

theorem addJsonLoader_ok' (c r : JsVal) (h : addJsonLoader c = .ok r) :
    ∃ L b, loadersOf c = some L ∧ reduceLoaders false L = .ok b ∧
      loadersOf r = some (if b then L else L ++ [jsonLoaderRule]) ∧
      ∀ k, k ≠ "module" → field r k = field c k := by
  rcases hasJsonLoader_cases c with ⟨L, hL, hh⟩ | ⟨e, he⟩
  · cases hb : reduceLoaders false L with
    | error e => simp [addJsonLoader, hh, hb, bind, Except.bind] at h
    | ok b =>
      refine ⟨L, b, hL, hb, ?_⟩
      cases b with
      | true =>
        simp only [addJsonLoader, hh, hb, bind, Except.bind, pure, Except.pure, Bool.not_true,
          Bool.false_eq_true, if_false, Except.ok.injEq] at h
        subst h
        exact ⟨by simpa using hL, fun k _ => rfl⟩
      | false =>
        simp only [loadersOf] at hL
        cases hm : field c "module" with
        | none => simp [hm] at hL
        | some mv =>
          simp only [hm] at hL
          have hl := (seqField_iff _ _ _).mp hL
          simp only [addJsonLoader, hh, hb, bind, Except.bind, pure, Except.pure,
            Bool.not_false, if_true, getProp_of_field c "module" mv hm,
            pushProp_of_field mv "loaders" jsonLoaderRule L hl, Except.ok.injEq] at h
          subst h
          refine ⟨?_, fun k hk => field_assign _ _ _ _ hk⟩
          simp only [loadersOf, field_assign_same c "module" _ mv hm, Bool.false_eq_true,
            if_false]
          exact (seqField_iff _ _ _).mpr (field_assign_same _ _ _ _ hl)
  · simp [addJsonLoader, he, bind, Except.bind] at h

/-- What a returned normalized configuration looks like, field by field. -/
theorem normalizedWith_ok (host : Host) (webpack2 : Bool) (config : GuideConfig)
    (styleguidist : JsVal) (env : String) (r : JsVal)
    (h : normalizedWith host webpack2 config styleguidist env = .ok r) :
    ∃ uo, userConfig config env = .ok uo ∧
      (∃ E, merged host webpack2 config styleguidist env (uo.getD []) "entry" = some (arr E) ∧
        seqField r "entry" = some (E ++ [str (indexEntry host)])) ∧
      (∃ module L b, merged host webpack2 config styleguidist env (uo.getD []) "module"
          = some module ∧ seqField module "loaders" = some L ∧ reduceLoaders false L = .ok b ∧
        loadersOf r = some (if b then L else L ++ [jsonLoaderRule])) ∧
      ∀ k, k ≠ "entry" → k ≠ "module" →
        field r k = merged host webpack2 config styleguidist env (uo.getD []) k := by
  simp only [normalizedWith, envConfig_eq, bind, Except.bind] at h
  cases h1 : userMerge (obj (coreFields host webpack2 config styleguidist env)) config env with
  | error e => simp [h1] at h
  | ok c1 =>
    simp only [h1] at h
    cases h2 : addJsonLoader c1 with
    | error e => simp [h2] at h
    | ok c2 =>
      simp only [h2] at h
      obtain ⟨uo, hu, hf⟩ := userMerge_ok _ _ _ _ h1
      obtain ⟨L, b, hL, hb, hL2, hframe2⟩ := addJsonLoader_ok' _ _ h2
      obtain ⟨E, hE, hE3, hframe3⟩ := addEntry_ok _ _ _ h
      refine ⟨uo, hu, ?_, ?_, ?_⟩
      · refine ⟨E, ?_, hE3⟩
        have h4 := hframe2 "entry" (by decide)
        have h5 := hf "entry"
        simp only [seqField, h4, h5] at hE
        simp only [merged]
        split at hE <;> simp_all
      · have h5 := hf "module"
        simp only [loadersOf, h5] at hL
        have h6 := hframe3 "module" (by decide)
        cases hm : combine (lookup "module" (coreFields host webpack2 config styleguidist env))
            (safeLookup "module" (uo.getD [])) with
        | none => simp [hm] at hL
        | some module =>
          simp only [hm] at hL
          refine ⟨module, L, b, hm, hL, hb, ?_⟩
          simp only [loadersOf, h6]
          simpa only [loadersOf] using hL2
      · intro k hk1 hk2
        rw [hframe3 k hk1, hframe2 k hk2, hf k, merged]

/-! ## Fields of the configuration before the user merge -/

theorem lookup_core_entry (host : Host) (webpack2 : Bool) (config : GuideConfig) (g : JsVal)
    (env : String) :
    lookup "entry" (coreFields host webpack2 config g env) = some (arr (coreEntry host env)) := by
  simp [coreFields, lookup]

theorem lookup_core_output (host : Host) (webpack2 : Bool) (config : GuideConfig) (g : JsVal)
    (env : String) :
    lookup "output" (coreFields host webpack2 config g env) = some (coreOutput config) := by
  simp [coreFields, lookup, coreOutput]

theorem lookup_core_plugins (host : Host) (webpack2 : Bool) (config : GuideConfig) (g : JsVal)
    (env : String) :
    lookup "plugins" (coreFields host webpack2 config g env)
      = some (arr (corePlugins webpack2 config g env)) := by
  simp [coreFields, lookup]

theorem lookup_core_module (host : Host) (webpack2 : Bool) (config : GuideConfig) (g : JsVal)
    (env : String) :
    lookup "module" (coreFields host webpack2 config g env)
      = some (obj [("loaders", arr [])]) := by
  simp [coreFields, lookup]

theorem lookup_core_resolveLoader (host : Host) (webpack2 : Bool) (config : GuideConfig)
    (g : JsVal) (env : String) :
    lookup "resolveLoader" (coreFields host webpack2 config g env)
      = some (coreResolveLoader host webpack2) := by
  cases webpack2 <;> simp [coreFields, lookup, lookup_append]

theorem lookup_core_styleguidist (host : Host) (webpack2 : Bool) (config : GuideConfig)
    (g : JsVal) (env : String) :
    lookup "styleguidist" (coreFields host webpack2 config g env)
      = if webpack2 then none else some g := by
  cases webpack2 <;> cases h : (env == "production") <;>
    simp [coreFields, lookup, lookup_append, h]

theorem buildConfig_noHook (host : Host) (webpack2 : Bool) (config : GuideConfig) (env : String)
    (hHook : config.updateWebpackConfig = none) :
    buildConfig host webpack2 config env = normalized host webpack2 config env := by
  simp only [buildConfig, hHook, bind, Except.bind, pure, Except.pure]
  cases normalized host webpack2 config env <;> rfl

/-! ## `hasJsonLoader` and the probe of the specification -/

theorem truthy_eq_not_falsy (v : JsVal) : truthy v = !falsy v := by
  cases v with
  | bool b => cases b <;> rfl
  | num n => simp [truthy, falsy, bne]
  | str s => simp [truthy, falsy, bne]
  | _ => rfl

theorem concatValue_eq (t : Option JsVal) : concatValue t = matchersOfTest t := by
  cases t with
  | none => rfl
  | some v => cases v <;> rfl

theorem matcherAccepts_eq (m : Option JsVal) :
    matcherAccepts m = scan [verdict m] := by
  cases m with
  | none => rfl
  | some v =>
    cases v with
    | regexp test =>
      simp only [matcherAccepts, verdict, testString]
      cases test "test.json" <;> rfl
    | func call =>
      simp only [matcherAccepts, verdict, testString]
      cases hc : call "test.json" with
      | error e => rfl
      | ok x =>
        simp only [Except.map, truthy_eq_not_falsy]
        cases falsy x <;> rfl
    | _ => rfl

theorem scan_append (xs ys : List Verdict) :
    scan (xs ++ ys) = match scan xs with
      | .ok false => scan ys
      | other => other := by
  induction xs with
  | nil => rfl
  | cons v rest ih =>
    cases v with
    | accepts => rfl
    | rejects => simpa [scan] using ih
    | raises e => rfl

theorem someM_eq_scan (ms : List (Option JsVal)) :
    someM matcherAccepts ms = scan (ms.map verdict) := by
  induction ms with
  | nil => rfl
  | cons m rest ih =>
    simp only [someM, List.map_cons, matcherAccepts_eq m]
    cases verdict m <;> simp [scan, ih]

theorem reducer_eq_scan (rule : JsVal) :
    reducer false rule = scan (ruleVerdicts rule) := by
  cases rule with
  | null => rfl
  | obj fields =>
    simp only [reducer, getProp, Bool.false_eq_true, if_false, ruleVerdicts, ruleMatchers,
      concatValue_eq, someM_eq_scan]
  | regexp test => rfl
  | _ => rfl

theorem reduceLoaders_true (L : List JsVal) : reduceLoaders true L = .ok true := by
  induction L with
  | nil => rfl
  | cons loader rest ih => simp [reduceLoaders, reducer, ih]

/-- The reduce of `hasJsonLoader` is the scan of the specification. -/
theorem reduceLoaders_eq_scan (L : List JsVal) :
    reduceLoaders false L = scan (verdictsOf L) := by
  induction L with
  | nil => rfl
  | cons rule rest ih =>
    simp only [reduceLoaders, verdictsOf, reducer_eq_scan, scan_append]
    cases hs : scan (ruleVerdicts rule) with
    | error e => rfl
    | ok b =>
      cases b with
      | true => simpa using reduceLoaders_true rest
      | false => simpa using ih

theorem scan_ok (vs : List Verdict) (b : Bool) (h : scan vs = .ok b) :
    b = true ↔ Verdict.accepts ∈ vs := by
  induction vs with
  | nil =>
    simp only [scan, Except.ok.injEq] at h
    simp [← h]
  | cons v rest ih =>
    cases v with
    | accepts =>
      simp only [scan, Except.ok.injEq] at h
      simp [← h]
    | rejects =>
      simp only [scan] at h
      simpa using ih h
    | raises e => simp [scan] at h

theorem scan_of_no_raise (vs : List Verdict) (h : ∀ e, Verdict.raises e ∉ vs) :
    scan vs = .ok (decide (Verdict.accepts ∈ vs)) := by
  induction vs with
  | nil => simp [scan]
  | cons v rest ih =>
    have hrest : ∀ e, Verdict.raises e ∉ rest := fun e he => h e (List.mem_cons_of_mem _ he)
    cases v with
    | accepts => simp [scan]
    | rejects => simp [scan, ih hrest]
    | raises e => exact absurd (List.mem_cons_self _ _) (h e)

theorem mem_verdictsOf (v : Verdict) (L : List JsVal) :
    v ∈ verdictsOf L ↔ ∃ rule ∈ L, v ∈ ruleVerdicts rule := by
  induction L with
  | nil => simp [verdictsOf]
  | cons rule rest ih => simp [verdictsOf, ih]

theorem accepts_mem_ruleVerdicts (rule : JsVal) :
    Verdict.accepts ∈ ruleVerdicts rule ↔
      ∃ m ∈ ruleMatchers rule, verdict m = .accepts := by
  cases rule with
  | null => simp [ruleVerdicts, ruleMatchers, verdict]
  | _ => simp only [ruleVerdicts, List.mem_map, eq_comm]

theorem ruleAccepts_iff (rule : JsVal) :
    ruleAccepts rule = true ↔ ∃ m ∈ ruleMatchers rule, verdict m = .accepts := by
  simp [ruleAccepts]

theorem accepts_mem_verdictsOf (L : List JsVal) :
    Verdict.accepts ∈ verdictsOf L ↔ L.any ruleAccepts = true := by
  rw [mem_verdictsOf, List.any_eq_true]
  constructor
  · rintro ⟨rule, hr, hv⟩
    exact ⟨rule, hr, (ruleAccepts_iff rule).mpr ((accepts_mem_ruleVerdicts rule).mp hv)⟩
  · rintro ⟨rule, hr, hv⟩
    exact ⟨rule, hr, (accepts_mem_ruleVerdicts rule).mpr ((ruleAccepts_iff rule).mp hv)⟩

theorem reduceLoaders_ok (L : List JsVal) (v b : Bool) (h : reduceLoaders v L = .ok b) :
    b = (v || L.any ruleAccepts) := by
  cases v with
  | true =>
    rw [reduceLoaders_true] at h
    simpa using h.symm
  | false =>
    rw [reduceLoaders_eq_scan] at h
    have := scan_ok _ _ h
    rw [accepts_mem_verdictsOf] at this
    simp only [Bool.false_or]
    cases b <;> cases hL : L.any ruleAccepts <;> simp_all

/-! ## Sequence fields after the user merge -/

theorem safeLookup_of_not_protected (k : String) (u : Fields) (hk : k ∉ protectedKeys) :
    safeLookup k u = lookup k u := by
  simp [safeLookup, hk]

theorem merged_module_loaders (host : Host) (webpack2 : Bool) (config : GuideConfig) (g : JsVal)
    (env : String) (u : Fields) (L : List JsVal) (hL : userLoaders u = some L) :
    ∃ module, merged host webpack2 config g env u "module" = some module ∧
      seqField module "loaders" = some L := by
  have hs : safeLookup "module" u = lookup "module" u :=
    safeLookup_of_not_protected _ _ (by decide)
  simp only [merged, lookup_core_module, hs]
  simp only [userLoaders] at hL
  cases hm : lookup "module" u with
  | none =>
    simp only [hm, Option.some.injEq] at hL
    subst hL
    exact ⟨_, rfl, rfl⟩
  | some m =>
    cases m with
    | obj mf =>
      simp only [hm, userSeq] at hL
      refine ⟨_, rfl, ?_⟩
      simp only [seqField, field_merge]
      cases hl : lookup "loaders" mf with
      | none =>
        simp only [hl, Option.some.injEq] at hL
        subst hL
        simp [lookup]
      | some l =>
        cases l <;> simp_all [lookup, merge]
    | _ => simp [hm] at hL

theorem merged_seq (host : Host) (webpack2 : Bool) (config : GuideConfig) (g : JsVal)
    (env : String) (u : Fields) (k : String) (A U : List JsVal) (hk : k ∉ protectedKeys)
    (hA : lookup k (coreFields host webpack2 config g env) = some (arr A))
    (hU : userSeq u k = some U) :
    merged host webpack2 config g env u k = some (arr (A ++ U)) := by
  simp only [merged, hA, safeLookup_of_not_protected k u hk]
  simp only [userSeq] at hU
  cases hl : lookup k u with
  | none => simp_all [combine]
  | some v => cases v <;> simp_all [combine, merge]

theorem sub_some (v : JsVal) (k : String) : sub (some v) k = field v k := by
  cases v <;> rfl

theorem sub_merged (host : Host) (webpack2 : Bool) (config : GuideConfig) (g : JsVal)
    (env : String) (u : Fields) (k0 k : String) (cf : Fields) (hk : k0 ∉ protectedKeys)
    (hc : lookup k0 (coreFields host webpack2 config g env) = some (obj cf))
    (hn : lookup k cf = none) :
    sub (merged host webpack2 config g env u k0) k = sub (lookup k0 u) k := by
  simp only [merged, hc, safeLookup_of_not_protected k0 u hk]
  cases hl : lookup k0 u with
  | none => simp [combine, sub, hn]
  | some v =>
    cases v with
    | obj uf =>
      simp only [combine, sub_some, field_merge, hn]
      simp [field]
    | _ => simp [combine, sub, merge]

theorem lookup_core_resolve (host : Host) (webpack2 : Bool) (config : GuideConfig) (g : JsVal)
    (env : String) :
    lookup "resolve" (coreFields host webpack2 config g env)
      = some (coreResolve host webpack2 config) := by
  simp [coreFields, lookup]

theorem lookup_core_debug (host : Host) (webpack2 : Bool) (config : GuideConfig) (g : JsVal)
    (env : String) :
    lookup "debug" (coreFields host webpack2 config g env)
      = if webpack2 then none else some (bool !(env == "production")) := by
  cases webpack2 <;> cases h : (env == "production") <;>
    simp [coreFields, lookup, lookup_append, h]

/-- The entry sequence of a returned normalized configuration. -/
theorem entry_of_normalized (host : Host) (webpack2 : Bool) (config : GuideConfig) (g : JsVal)
    (env : String) (r : JsVal) (uo : Option Fields) (E : List JsVal)
    (hu : userConfig config env = .ok uo)
    (hE : userSeq (uo.getD []) "entry" = some E)
    (hr : normalizedWith host webpack2 config g env = .ok r) :
    seqField r "entry" = some (coreEntry host env ++ E ++ [str (indexEntry host)]) := by
  obtain ⟨uo', hu', ⟨E', hm, hres⟩, _, _⟩ := normalizedWith_ok _ _ _ _ _ _ hr
  rw [hu] at hu'
  cases hu'
  rw [merged_seq host webpack2 config g env _ "entry" _ E (by decide)
    (lookup_core_entry _ _ _ _ _) hE] at hm
  simp only [Option.some.injEq, arr.injEq] at hm
  rw [hres, ← hm]

/-- The plugin sequence of a returned normalized configuration. -/
theorem plugins_of_normalized (host : Host) (webpack2 : Bool) (config : GuideConfig) (g : JsVal)
    (env : String) (r : JsVal) (uo : Option Fields) (P : List JsVal)
    (hu : userConfig config env = .ok uo)
    (hP : userSeq (uo.getD []) "plugins" = some P)
    (hr : normalizedWith host webpack2 config g env = .ok r) :
    seqField r "plugins" = some (corePlugins webpack2 config g env ++ P) := by
  obtain ⟨uo', hu', _, _, hk⟩ := normalizedWith_ok _ _ _ _ _ _ hr
  rw [hu] at hu'
  cases hu'
  have := merged_seq host webpack2 config g env _ "plugins" _ P (by decide)
    (lookup_core_plugins _ _ _ _ _) hP
  simp [seqField, hk "plugins" (by decide) (by decide), this]

theorem merge_scalar (x v : JsVal) (hv : isScalar v = true) : merge x v = v := by
  cases v <;> cases x <;> simp_all [merge, isScalar]

theorem combine_seq (acc u : Fields) (k : String) (A U : List JsVal) (hk : k ∉ protectedKeys)
    (hA : seqField (obj acc) k = some A) (hU : userSeq u k = some U) :
    combine (lookup k acc) (safeLookup k u) = some (arr (A ++ U)) := by
  simp only [safeLookup_of_not_protected k u hk]
  simp only [seqField, field] at hA
  simp only [userSeq] at hU
  cases ha : lookup k acc with
  | none => simp [ha] at hA
  | some a =>
    cases a with
    | arr A' =>
      simp only [ha, Option.some.injEq] at hA
      subst hA
      cases hl : lookup k u with
      | none => simp_all [combine]
      | some v => cases v <;> simp_all [combine, merge]
    | _ => simp [ha] at hA

theorem combine_loaders (acc u : Fields) (A U : List JsVal)
    (hA : loadersOf (obj acc) = some A) (hU : userLoaders u = some U) :
    ∃ module, combine (lookup "module" acc) (safeLookup "module" u) = some module ∧
      seqField module "loaders" = some (A ++ U) := by
  have hs : safeLookup "module" u = lookup "module" u :=
    safeLookup_of_not_protected _ _ (by decide)
  simp only [loadersOf, field] at hA
  simp only [userLoaders] at hU
  rw [hs]
  cases ha : lookup "module" acc with
  | none => simp [ha] at hA
  | some am =>
    simp only [ha] at hA
    cases hm : lookup "module" u with
    | none =>
      simp only [hm, Option.some.injEq] at hU
      subst hU
      exact ⟨am, rfl, by simpa using hA⟩
    | some m =>
      cases m with
      | obj mf =>
        simp only [hm] at hU
        cases am with
        | obj af =>
          refine ⟨_, rfl, ?_⟩
          have h1 := combine_seq af mf "loaders" A U (by decide) hA hU
          rw [safeLookup_of_not_protected _ _ (by decide)] at h1
          simp only [seqField, field_merge]
          simp only [combine] at h1
          rw [h1]
        | _ => simp [seqField, field] at hA
      | _ => simp [hm] at hU

/-! ## When a configuration is returned -/

theorem field_some_obj (c : JsVal) (k : String) (v : JsVal) (h : field c k = some v) :
    ∃ fs, c = obj fs ∧ lookup k fs = some v := by
  cases c with
  | obj fs => exact ⟨fs, rfl, h⟩
  | _ => simp [field] at h

theorem seqField_some (c : JsVal) (k : String) (A : List JsVal) (h : seqField c k = some A) :
    ∃ fs, c = obj fs ∧ lookup k fs = some (arr A) := by
  simp only [seqField] at h
  cases hf : field c k with
  | none => simp [hf] at h
  | some v =>
    cases v with
    | arr A' =>
      simp only [hf, Option.some.injEq] at h
      subst h
      exact field_some_obj c k _ hf
    | _ => simp [hf] at h

theorem addJsonLoader_returns (c : JsVal) (L : List JsVal) (b : Bool)
    (hL : loadersOf c = some L) (hb : reduceLoaders false L = .ok b) :
    ∃ r, addJsonLoader c = .ok r := by
  simp only [loadersOf] at hL
  cases hm : field c "module" with
  | none => simp [hm] at hL
  | some module =>
    simp only [hm] at hL
    obtain ⟨fs, hc, hfs⟩ := field_some_obj c "module" module hm
    obtain ⟨mf, hmod, hmf⟩ := seqField_some module "loaders" L hL
    subst hc
    subst hmod
    cases b <;>
      simp [addJsonLoader, hasJsonLoader, pushProp, push, getProp, hfs, hmf, hb, bind,
        Except.bind, pure, Except.pure]

theorem addEntry_returns (host : Host) (c : JsVal) (E : List JsVal)
    (hE : seqField c "entry" = some E) :
    ∃ r, addEntry host c = .ok r := by
  obtain ⟨fs, hc, hfs⟩ := seqField_some c "entry" E hE
  subst hc
  simp [addEntry, pushProp, push, getProp, hfs, bind, Except.bind, pure, Except.pure]

/-- A configuration is returned whenever the user's configuration is obtained
without error, its `entry` and `module.loaders` are sequences or absent, and
probing its rules raises no error. -/
theorem normalizedWith_returns (host : Host) (webpack2 : Bool) (config : GuideConfig)
    (g : JsVal) (env : String) (uo : Option Fields) (E L : List JsVal) (b : Bool)
    (hu : userConfig config env = .ok uo)
    (hE : userSeq (uo.getD []) "entry" = some E)
    (hL : userLoaders (uo.getD []) = some L)
    (hb : reduceLoaders false L = .ok b) :
    ∃ r, normalizedWith host webpack2 config g env = .ok r := by
  have hex : ∃ c1, userMerge (obj (coreFields host webpack2 config g env)) config env
      = .ok c1 := by
    cases uo <;> simp [userMerge, hu, bind, Except.bind, pure, Except.pure]
  obtain ⟨c1, h1⟩ := hex
  obtain ⟨uo', hu', hf⟩ := userMerge_ok _ _ _ _ h1
  rw [hu] at hu'
  cases hu'
  have hl1 : loadersOf c1 = some L := by
    obtain ⟨module, hm, hl⟩ := merged_module_loaders host webpack2 config g env _ L hL
    simp only [merged] at hm
    simp [loadersOf, hf "module", hm, hl]
  obtain ⟨c2, h2⟩ := addJsonLoader_returns c1 L b hl1 hb
  obtain ⟨_, _, _, _, _, hframe⟩ := addJsonLoader_ok' _ _ h2
  have he2 : seqField c2 "entry" = some (coreEntry host env ++ E) := by
    have := merged_seq host webpack2 config g env _ "entry" _ E (by decide)
      (lookup_core_entry _ _ _ _ _) hE
    simp only [merged] at this
    simp [seqField, hframe "entry" (by decide), hf "entry", this]
  obtain ⟨r, h3⟩ := addEntry_returns host c2 _ he2
  exact ⟨r, by simp [normalizedWith, envConfig_eq, bind, Except.bind, h1, h2, h3]⟩

/-! ## The JSON rule after normalization -/

theorem reduceLoaders_append (L M : List JsVal) (v b : Bool) (h : reduceLoaders v L = .ok b) :
    reduceLoaders v (L ++ M) = reduceLoaders b M := by
  induction L generalizing v with
  | nil =>
    simp only [reduceLoaders, Except.ok.injEq] at h
    subst h
    rfl
  | cons loader rest ih =>
    simp only [reduceLoaders, List.cons_append] at h ⊢
    cases hr : reducer v loader with
    | error e => simp [hr] at h
    | ok w =>
      simp only [hr] at h ⊢
      exact ih w h

theorem jsonLoaderRule_accepts : ruleAccepts jsonLoaderRule = true := by
  decide

theorem reduceLoaders_jsonLoaderRule (v : Bool) :
    reduceLoaders v [jsonLoaderRule] = .ok true := by
  cases v
  · rfl
  · rfl

/-- After the JSON fix-up the configuration has a JSON loader. -/
theorem hasJsonLoader_addJsonLoader (c r : JsVal) (h : addJsonLoader c = .ok r) :
    hasJsonLoader r = .ok true := by
  obtain ⟨L, b, _, hb, hr, _⟩ := addJsonLoader_ok' c r h
  rw [hasJsonLoader_of_loaders r _ hr]
  cases b with
  | true =>
    have := reduceLoaders_ok L false true hb
    simpa using hb
  | false =>
    simp only [Bool.false_eq_true, if_false]
    rw [reduceLoaders_append L _ false false hb]
    exact reduceLoaders_jsonLoaderRule false

theorem addJsonLoader_of_hasJsonLoader (r : JsVal) (h : hasJsonLoader r = .ok true) :
    addJsonLoader r = .ok r := by
  simp [addJsonLoader, h, bind, Except.bind, pure, Except.pure]

/-! ## The result without a user configuration -/

/-- The loaders of a returned normalized configuration. -/
theorem loaders_of_normalized (host : Host) (webpack2 : Bool) (config : GuideConfig) (g : JsVal)
    (env : String) (r : JsVal) (uo : Option Fields) (L : List JsVal)
    (hu : userConfig config env = .ok uo)
    (hL : userLoaders (uo.getD []) = some L)
    (hr : normalizedWith host webpack2 config g env = .ok r) :
    ∃ b, reduceLoaders false L = .ok b ∧
      loadersOf r = some (if b then L else L ++ [jsonLoaderRule]) := by
  obtain ⟨uo', hu', _, ⟨module, L', b, hm, hL', hb, hres⟩, _⟩ := normalizedWith_ok _ _ _ _ _ _ hr
  rw [hu] at hu'
  cases hu'
  obtain ⟨module', hm', hL''⟩ := merged_module_loaders host webpack2 config g env _ L hL
  rw [hm] at hm'
  cases hm'
  rw [hL'] at hL''
  cases hL''
  exact ⟨b, hb, hres⟩

/-- The fields of a returned normalized configuration that the two fix-ups
leave alone. -/
theorem field_of_normalized (host : Host) (webpack2 : Bool) (config : GuideConfig) (g : JsVal)
    (env : String) (r : JsVal) (uo : Option Fields) (k : String)
    (hu : userConfig config env = .ok uo)
    (hr : normalizedWith host webpack2 config g env = .ok r)
    (hk1 : k ≠ "entry") (hk2 : k ≠ "module") :
    field r k = merged host webpack2 config g env (uo.getD []) k := by
  obtain ⟨uo', hu', _, _, hk⟩ := normalizedWith_ok _ _ _ _ _ _ hr
  rw [hu] at hu'
  cases hu'
  exact hk k hk1 hk2

theorem combine_none (a : Option JsVal) : combine a none = a := by
  cases a <;> rfl

theorem merged_nil (host : Host) (webpack2 : Bool) (config : GuideConfig) (g : JsVal)
    (env : String) (k : String) :
    merged host webpack2 config g env [] k = lookup k (coreFields host webpack2 config g env) := by
  have hs : safeLookup k [] = none := by simp [safeLookup, lookup]
  rw [merged, hs]
  exact combine_none _

/-- Without a user configuration and without a hook a configuration is always
returned: the core's fields, with the default JSON rule as the only loader and
the internal entry path as the last entry. -/
theorem buildConfig_noUser (host : Host) (webpack2 : Bool) (config : GuideConfig) (env : String)
    (hUser : config.webpackConfig = none) (hHook : config.updateWebpackConfig = none) :
    ∃ r, buildConfig host webpack2 config env = .ok r ∧
      seqField r "entry" = some (coreEntry host env ++ [str (indexEntry host)]) ∧
      loadersOf r = some [jsonLoaderRule] ∧
      seqField r "plugins" = some (corePlugins webpack2 config config.toJs env) ∧
      ∀ k, k ≠ "entry" → k ≠ "module" →
        field r k = lookup k (coreFields host webpack2 config config.toJs env) := by
  have hu : userConfig config env = .ok none := by simp [userConfig, hUser, pure, Except.pure]
  rw [buildConfig_noHook _ _ _ _ hHook]
  obtain ⟨r, hr⟩ := normalizedWith_returns host webpack2 config config.toJs env none [] []
    false hu rfl rfl rfl
  refine ⟨r, hr, ?_, ?_, ?_, ?_⟩
  · simpa using entry_of_normalized _ _ _ _ _ _ none [] hu rfl hr
  · obtain ⟨b, hb, hres⟩ := loaders_of_normalized _ _ _ _ _ _ none [] hu rfl hr
    simp only [reduceLoaders, Except.ok.injEq] at hb
    subst hb
    simpa using hres
  · simpa using plugins_of_normalized _ _ _ _ _ _ none [] hu rfl hr
  · intro k hk1 hk2
    rw [field_of_normalized _ _ _ _ _ _ none k hu hr hk1 hk2]
    exact merged_nil _ _ _ _ _ _

/-! ## The default JSON rule -/

theorem endsWith_json_iff (name : String) :
    ".json".toList.isSuffixOf name.toList = true ↔ ∃ stem : String, name = stem ++ ".json" := by
  rw [List.isSuffixOf_iff_suffix]
  constructor
  · rintro ⟨pre, hpre⟩
    exact ⟨⟨pre⟩, String.ext (by simpa using hpre.symm)⟩
  · rintro ⟨stem, hstem⟩
    exact ⟨stem.data, by rw [hstem]; rfl⟩

theorem isDefaultJsonRule_jsonLoaderRule : IsDefaultJsonRule jsonLoaderRule :=
  ⟨_, rfl, endsWith_json_iff⟩

/-! ## Assignments that commute with the steps -/

theorem setField_comm (k1 k2 : String) (v1 v2 x1 : JsVal) (fs : Fields) (hne : k1 ≠ k2)
    (h1 : lookup k1 fs = some x1) :
    setField k1 v1 (setField k2 v2 fs) = setField k2 v2 (setField k1 v1 fs) := by
  induction fs with
  | nil => simp [lookup] at h1
  | cons p rest ih =>
    obtain ⟨k0, v0⟩ := p
    by_cases h01 : k0 = k1
    · subst h01
      have h02 : ¬ k0 = k2 := hne
      simp [setField, h02]
    · have hrest : lookup k1 rest = some x1 := by simpa [lookup, h01] using h1
      by_cases h02 : k0 = k2
      · subst h02
        simp [setField, h01]
      · simp [setField, h01, h02, ih hrest]

theorem setField_append (k : String) (v x : JsVal) (A B : Fields) (h : lookup k A = some x) :
    setField k v (A ++ B) = setField k v A ++ B := by
  induction A with
  | nil => simp [lookup] at h
  | cons p rest ih =>
    obtain ⟨k0, v0⟩ := p
    by_cases h0 : k0 = k
    · subst h0; simp [setField]
    · have hrest : lookup k rest = some x := by simpa [lookup, h0] using h
      simp [setField, h0, ih hrest]

theorem setField_same (k : String) (x : JsVal) (fs : Fields) (h : lookup k fs = some x) :
    setField k x fs = fs := by
  induction fs with
  | nil => simp [lookup] at h
  | cons p rest ih =>
    obtain ⟨k0, v0⟩ := p
    by_cases h0 : k0 = k
    · subst h0
      simp only [lookup, if_true, Option.some.injEq] at h
      simp [setField, h]
    · have hrest : lookup k rest = some x := by simpa [lookup, h0] using h
      simp [setField, h0, ih hrest]

theorem mergeFields_setField (k : String) (x x' : JsVal) (a b : Fields)
    (hk : lookup k a = some x) :
    mergeFields (setField k x' a) b
      = setField k (match lookup k b with
          | some v => merge x' v
          | none => x') (mergeFields a b) := by
  induction a with
  | nil => simp [lookup] at hk
  | cons p rest ih =>
    obtain ⟨k0, v0⟩ := p
    by_cases h0 : k0 = k
    · subst h0
      simp [setField, mergeFields]
    · have hrest : lookup k rest = some x := by simpa [lookup, h0] using hk
      simp [setField, mergeFields, h0, ih hrest]

theorem isNone_lookup_setField (k k' : String) (v x : JsVal) (fs : Fields)
    (h : lookup k fs = some x) :
    (lookup k' (setField k v fs)).isNone = (lookup k' fs).isNone := by
  rw [lookup_setField]
  by_cases hk : k' = k
  · subst hk; simp [h]
  · simp [hk]

theorem merge_setField (k : String) (x x' : JsVal) (a b : Fields) (hk : lookup k a = some x) :
    merge (obj (setField k x' a)) (obj b)
      = assign (merge (obj a) (obj b)) k (match lookup k b with
          | some v => merge x' v
          | none => x') := by
  have hf : (fun p : String × JsVal => (lookup p.1 (setField k x' a)).isNone)
      = (fun p : String × JsVal => (lookup p.1 a).isNone) := by
    funext p
    exact isNone_lookup_setField k p.1 x' x a hk
  have hm : ∃ y, lookup k (mergeFields a b) = some y := by
    rw [lookup_mergeFields, hk]
    exact ⟨_, rfl⟩
  obtain ⟨y, hy⟩ := hm
  simp only [merge, assign, hf, mergeFields_setField k x x' a b hk]
  rw [setField_append k _ y _ _ hy]

theorem hasJsonLoader_setField (k : String) (y : JsVal) (fs : Fields) (hk : k ≠ "module") :
    hasJsonLoader (obj (setField k y fs)) = hasJsonLoader (obj fs) := by
  have h : ¬ "module" = k := fun e => hk e.symm
  simp [hasJsonLoader, getProp, lookup_setField, h]

theorem addJsonLoader_setField (k : String) (x y : JsVal) (fs : Fields) (hk : k ≠ "module")
    (hx : lookup k fs = some x) :
    addJsonLoader (obj (setField k y fs))
      = (addJsonLoader (obj fs)).map (fun r => assign r k y) := by
  have h : ¬ "module" = k := fun e => hk e.symm
  simp only [addJsonLoader, hasJsonLoader_setField k y fs hk, bind, Except.bind]
  cases hh : hasJsonLoader (obj fs) with
  | error e => rfl
  | ok b =>
    cases b with
    | true => rfl
    | false =>
      simp only [Bool.not_false, if_true, getProp, lookup_setField, h, if_false]
      cases hp : pushProp (lookup "module" fs) "loaders" jsonLoaderRule with
      | error e => rfl
      | ok m =>
        simp only [pure, Except.pure, Except.map, assign, Except.ok.injEq, obj.injEq]
        exact (setField_comm k "module" y m x fs hk hx).symm

theorem addEntry_setField (host : Host) (k : String) (x y : JsVal) (fs : Fields)
    (hk : k ≠ "entry") (hx : lookup k fs = some x) :
    addEntry host (obj (setField k y fs))
      = (addEntry host (obj fs)).map (fun r => assign r k y) := by
  have h : ¬ "entry" = k := fun e => hk e.symm
  simp only [addEntry, pushProp, getProp, lookup_setField, h, if_false, bind, Except.bind]
  cases hp : push (lookup "entry" fs) (str (indexEntry host)) with
  | error e => rfl
  | ok a =>
    simp only [pure, Except.pure, Except.map, assign, Except.ok.injEq, obj.injEq]
    exact (setField_comm k "entry" y a x fs hk hx).symm

theorem addJsonLoader_obj (fs : Fields) (r : JsVal) (h : addJsonLoader (obj fs) = .ok r) :
    ∃ fs', r = obj fs' ∧ ∀ k x, lookup k fs = some x → ∃ x', lookup k fs' = some x' := by
  simp only [addJsonLoader, bind, Except.bind] at h
  cases hh : hasJsonLoader (obj fs) with
  | error e => simp [hh] at h
  | ok b =>
    cases b with
    | true =>
      simp only [hh, Bool.not_true, Bool.false_eq_true, if_false, pure, Except.pure,
        Except.ok.injEq] at h
      exact ⟨fs, h.symm, fun k x hx => ⟨x, hx⟩⟩
    | false =>
      simp only [hh, Bool.not_false, if_true, getProp] at h
      cases hp : pushProp (lookup "module" fs) "loaders" jsonLoaderRule with
      | error e => simp [hp] at h
      | ok m =>
        simp only [hp, pure, Except.pure, assign, Except.ok.injEq] at h
        refine ⟨_, h.symm, fun k x hx => ?_⟩
        rw [lookup_setField]
        by_cases hk : k = "module"
        · exact ⟨m, by simp [hk]⟩
        · exact ⟨x, by simp [hk, hx]⟩

/-- The value that the user merge leaves under `k` when the accumulated
configuration holds `x` there. -/
theorem userMerge_setField (k : String) (x x' : JsVal) (fs : Fields) (config : GuideConfig)
    (env : String) (uo : Option Fields) (hu : userConfig config env = .ok uo)
    (hx : lookup k fs = some x) :
    userMerge (obj (setField k x' fs)) config env
      = (userMerge (obj fs) config env).map (fun r => assign r k
          (match uo with
           | none => x'
           | some u =>
             match lookup k (omitKeys u protectedKeys) with
             | some v => merge x' v
             | none => x')) := by
  simp only [userMerge, hu, bind, Except.bind]
  cases uo with
  | none => rfl
  | some u =>
    simp only [pure, Except.pure, Except.map, Except.ok.injEq]
    exact merge_setField k x x' fs _ hx

theorem userMerge_obj (fs : Fields) (config : GuideConfig) (env : String) (r : JsVal)
    (h : userMerge (obj fs) config env = .ok r) :
    ∃ fs', r = obj fs' ∧ ∀ k x, lookup k fs = some x → ∃ x', lookup k fs' = some x' := by
  obtain ⟨uo, hu, hf⟩ := userMerge_ok fs config env r h
  simp only [userMerge, hu, bind, Except.bind] at h
  cases uo with
  | none =>
    simp only [pure, Except.pure, Except.ok.injEq] at h
    exact ⟨fs, h.symm, fun k x hx => ⟨x, hx⟩⟩
  | some u =>
    simp only [pure, Except.pure, merge, Except.ok.injEq] at h
    refine ⟨_, h.symm, fun k x hx => ?_⟩
    have := hf k
    rw [← h] at this
    simp only [field] at this
    rw [this, hx]
    simp only [combine]
    cases safeLookup k (Option.getD (some u) []) <;> exact ⟨_, rfl⟩

/-- Storing another value under a key of the accumulated configuration, other
than `entry` and `module`, changes the normalized configuration under that key
only. -/
theorem finish_setField (host : Host) (config : GuideConfig) (env : String) (k : String)
    (x x' : JsVal) (fs : Fields) (uo : Option Fields)
    (hu : userConfig config env = .ok uo)
    (hk1 : k ≠ "entry") (hk2 : k ≠ "module") (hx : lookup k fs = some x) :
    finish host config env (obj (setField k x' fs))
      = (finish host config env (obj fs)).map (fun r => assign r k
          (match uo with
           | none => x'
           | some u =>
             match lookup k (omitKeys u protectedKeys) with
             | some v => merge x' v
             | none => x')) := by
  simp only [finish, bind, Except.bind, userMerge_setField k x x' fs config env uo hu hx]
  cases h1 : userMerge (obj fs) config env with
  | error e => rfl
  | ok c1 =>
    obtain ⟨f1, hc1, hp1⟩ := userMerge_obj fs config env c1 h1
    subst hc1
    obtain ⟨x1, hx1⟩ := hp1 k x hx
    simp only [Except.map, assign, addJsonLoader_setField k x1 _ f1 hk2 hx1]
    cases h2 : addJsonLoader (obj f1) with
    | error e => rfl
    | ok c2 =>
      obtain ⟨f2, hc2, hp2⟩ := addJsonLoader_obj f1 c2 h2
      subst hc2
      obtain ⟨x2, hx2⟩ := hp2 k x1 hx1
      simp only [Except.map, assign, addEntry_setField host k x2 _ f2 hk1 hx2]

/-! ## The embedded copy of the guide configuration -/

theorem normalizedWith_eq_finish (host : Host) (webpack2 : Bool) (config : GuideConfig)
    (g : JsVal) (env : String) :
    normalizedWith host webpack2 config g env
      = finish host config env (obj (coreFields host webpack2 config g env)) := by
  simp only [normalizedWith, envConfig_eq, finish, bind, Except.bind]

theorem finish_error (host : Host) (config : GuideConfig) (env : String) (acc : JsVal)
    (e : JsError) (hu : userConfig config env = .error e) :
    finish host config env acc = .error e := by
  simp [finish, userMerge, hu, bind, Except.bind]

theorem coreFields_legacy (host : Host) (config : GuideConfig) (g1 g2 : JsVal) (env : String) :
    coreFields host false config g2 env
      = setField "styleguidist" g2 (coreFields host false config g1 env) := by
  cases h : (env == "production") <;> simp [coreFields, corePlugins, setField, h]

theorem coreFields_modern (host : Host) (config : GuideConfig) (g1 g2 : JsVal) (env : String) :
    coreFields host true config g2 env
      = setField "plugins" (arr (corePlugins true config g2 env))
          (coreFields host true config g1 env) := by
  cases h : (env == "production") <;> simp [coreFields, setField, h]

/-- The plugins of the Modern shape: the loader-options wrapper, which holds
the guide, is the third. -/
theorem corePlugins_modern (config : GuideConfig) (env : String) :
    ∃ p0 p1 rest, ∀ g', corePlugins true config g' env
      = p0 :: p1 :: inst "webpack.LoaderOptionsPlugin"
          [("minimize", bool (env == "production")), ("debug", bool !(env == "production")),
           ("options", obj [("styleguidist", g')])] :: rest := by
  cases h : (env == "production")
  · exact ⟨_, _, _, fun g' => by simp [corePlugins, h]; exact ⟨rfl, rfl, rfl⟩⟩
  · exact ⟨_, _, _, fun g' => by simp [corePlugins, h]; exact ⟨rfl, rfl, rfl⟩⟩

/-- The quote, the backslash and the control characters are escaped. -/
theorem jsonStringify_escapes :
    jsonStringify "a\"b\\c\nd\x01" = "\"a\\\"b\\\\c\\nd\\u0001\"" := by
  decide

theorem storeGuide_legacy (g : JsVal) (r : JsVal) :
    storeGuide false g r = assign r "styleguidist" g := by
  simp [storeGuide]

theorem storeGuide_plugins (g r p0 p1 : JsVal) (fields : Fields) (rest : List JsVal)
    (h : field r "plugins"
      = some (arr (p0 :: p1 :: inst "webpack.LoaderOptionsPlugin" fields :: rest))) :
    storeGuide true g r = assign r "plugins" (arr (p0 :: p1 ::
      inst "webpack.LoaderOptionsPlugin"
        (setField "options" (obj [("styleguidist", g)]) fields) :: rest)) := by
  simp [storeGuide, h]

theorem storeGuide_other (g r v : JsVal) (h : field r "plugins" = some v)
    (hv : ∀ items, v ≠ arr items) : storeGuide true g r = r := by
  cases v with
  | arr items => exact absurd rfl (hv items)
  | _ => simp [storeGuide, h]

theorem field_of_assign_fixed (r : JsVal) (k : String) (y x : JsVal)
    (hx : field r k = some x) (h : r = assign r k y) : field r k = some y := by
  rw [h]
  exact field_assign_same r k y x hx

/-- The normalized configuration for another stored guide value is the same
configuration with the embedded copy replaced. -/
theorem normalizedWith_storeGuide (host : Host) (webpack2 : Bool) (config : GuideConfig)
    (g1 g2 : JsVal) (env : String) :
    normalizedWith host webpack2 config g2 env
      = (normalizedWith host webpack2 config g1 env).map (storeGuide webpack2 g2) := by
  rw [normalizedWith_eq_finish, normalizedWith_eq_finish]
  cases hu : userConfig config env with
  | error e =>
    rw [finish_error _ _ _ _ e hu, finish_error _ _ _ _ e hu]
    rfl
  | ok uo =>
    cases webpack2 with
    | false =>
      have hx : lookup "styleguidist" (coreFields host false config g1 env) = some g1 := by
        simp [lookup_core_styleguidist]
      have h2 := finish_setField host config env "styleguidist" g1 g2 _ uo hu (by decide)
        (by decide) hx
      rw [coreFields_legacy host config g1 g2 env, h2]
      have hv : ∀ r, assign r "styleguidist" g2 = storeGuide false g2 r :=
        fun r => (storeGuide_legacy g2 r).symm
      cases uo with
      | none => simp only [hv]
      | some u =>
        have hl : lookup "styleguidist" (omitKeys u protectedKeys) = none := by
          simp [lookup_omitKeys, protectedKeys]
        simp only [hl, hv]
    | true =>
      obtain ⟨p0, p1, rest, hP⟩ := corePlugins_modern config env
      have hx : lookup "plugins" (coreFields host true config g1 env)
          = some (arr (corePlugins true config g1 env)) := lookup_core_plugins _ _ _ _ _
      have h2 := finish_setField host config env "plugins" _
        (arr (corePlugins true config g2 env)) _ uo hu (by decide) (by decide) hx
      have h1 := finish_setField host config env "plugins" _
        (arr (corePlugins true config g1 env)) _ uo hu (by decide) (by decide) hx
      rw [setField_same _ _ _ hx] at h1
      rw [coreFields_modern host config g1 g2 env, h2]
      cases hf : finish host config env (obj (coreFields host true config g1 env)) with
      | error e => rfl
      | ok r =>
        rw [hf] at h1
        simp only [Except.map, Except.ok.injEq] at h1 ⊢
        cases r with
        | obj f =>
          have hl : ∃ x, field (obj f) "plugins" = some x := by
            rw [h1]
            simp [field, assign, lookup_setField]
          obtain ⟨x, hxf⟩ := hl
          have hy := field_of_assign_fixed _ _ _ _ hxf h1
          cases uo with
          | none =>
            simp only [hP g1] at hy
            rw [storeGuide_plugins _ _ _ _ _ _ hy]
            simp [hP g2, setField]
          | some u =>
            cases hv : lookup "plugins" (omitKeys u protectedKeys) with
            | none =>
              simp only [hv, hP g1] at hy
              rw [storeGuide_plugins _ _ _ _ _ _ hy]
              simp [hv, hP g2, setField]
            | some v =>
              cases v with
              | arr B =>
                simp only [hv, hP g1, merge, List.cons_append] at hy
                rw [storeGuide_plugins _ _ _ _ _ _ hy]
                simp [hv, hP g2, setField, merge]
              | _ =>
                simp only [hv, merge] at hy h1 ⊢
                rw [storeGuide_other _ _ _ hy (by intro items; simp)]
                exact h1.symm
        | _ => simp [storeGuide, field, assign]

/-! ## The probe inside `buildConfig` -/

theorem userMerge_core_loaders (host : Host) (webpack2 : Bool) (config : GuideConfig)
    (g : JsVal) (env : String) (uo : Option Fields) (L : List JsVal)
    (hu : userConfig config env = .ok uo)
    (hL : userLoaders (uo.getD []) = some L) :
    ∃ c1, userMerge (obj (coreFields host webpack2 config g env)) config env = .ok c1 ∧
      loadersOf c1 = some L := by
  have hex : ∃ c1, userMerge (obj (coreFields host webpack2 config g env)) config env
      = .ok c1 := by
    cases uo <;> simp [userMerge, hu, bind, Except.bind, pure, Except.pure]
  obtain ⟨c1, h1⟩ := hex
  obtain ⟨uo', hu', hf⟩ := userMerge_ok _ _ _ _ h1
  rw [hu] at hu'
  cases hu'
  refine ⟨c1, h1, ?_⟩
  obtain ⟨module, hm, hl⟩ := merged_module_loaders host webpack2 config g env _ L hL
  simp only [merged] at hm
  simp [loadersOf, hf "module", hm, hl]

/-- An error met while probing the user's rules is the outcome of the
normalization. -/
theorem normalizedWith_probe_error (host : Host) (webpack2 : Bool) (config : GuideConfig)
    (g : JsVal) (env : String) (uo : Option Fields) (L : List JsVal) (e : JsError)
    (hu : userConfig config env = .ok uo)
    (hL : userLoaders (uo.getD []) = some L)
    (hs : scan (verdictsOf L) = .error e) :
    normalizedWith host webpack2 config g env = .error e := by
  obtain ⟨c1, h1, hl1⟩ := userMerge_core_loaders host webpack2 config g env uo L hu hL
  have hh : hasJsonLoader c1 = .error e := by
    rw [hasJsonLoader_of_loaders c1 L hl1, reduceLoaders_eq_scan, hs]
  simp [normalizedWith, envConfig_eq, bind, Except.bind, h1, addJsonLoader, hh]

theorem normalizedWith_returns_of_scan (host : Host) (webpack2 : Bool) (config : GuideConfig)
    (g : JsVal) (env : String) (uo : Option Fields) (E L : List JsVal) (b : Bool)
    (hu : userConfig config env = .ok uo)
    (hE : userSeq (uo.getD []) "entry" = some E)
    (hL : userLoaders (uo.getD []) = some L)
    (hb : scan (verdictsOf L) = .ok b) :
    ∃ r, normalizedWith host webpack2 config g env = .ok r :=
  normalizedWith_returns host webpack2 config g env uo E L b hu hE hL
    (by rw [reduceLoaders_eq_scan, hb])

/-- A normalized configuration has a JSON loader and ends its entries with the
internal entry path. -/
theorem hasJsonLoader_of_normalized (host : Host) (webpack2 : Bool) (config : GuideConfig)
    (g : JsVal) (env : String) (r : JsVal)
    (hr : normalizedWith host webpack2 config g env = .ok r) :
    hasJsonLoader r = .ok true := by
  simp only [normalizedWith, envConfig_eq, bind, Except.bind] at hr
  cases h1 : userMerge (obj (coreFields host webpack2 config g env)) config env with
  | error e => simp [h1] at hr
  | ok c1 =>
    simp only [h1] at hr
    cases h2 : addJsonLoader c1 with
    | error e => simp [h2] at hr
    | ok c2 =>
      simp only [h2] at hr
      have hj := hasJsonLoader_addJsonLoader c1 c2 h2
      obtain ⟨_, _, _, hframe⟩ := addEntry_ok host c2 r hr
      rcases hasJsonLoader_cases c2 with ⟨L, hL, hh⟩ | ⟨e, he⟩
      · have hLr : loadersOf r = some L := by
          simpa only [loadersOf, hframe "module" (by decide)] using hL
        rw [hasJsonLoader_of_loaders r L hLr, ← hh, hj]
      · rw [hj] at he
        cases he

theorem last_entry_of_normalized (host : Host) (webpack2 : Bool) (config : GuideConfig)
    (g : JsVal) (env : String) (r : JsVal)
    (hr : normalizedWith host webpack2 config g env = .ok r) :
    ∃ entries, seqField r "entry" = some entries ∧
      entries.getLast? = some (str (indexEntry host)) := by
  obtain ⟨_, _, ⟨E, _, hE⟩, _, _⟩ := normalizedWith_ok _ _ _ _ _ _ hr
  exact ⟨_, hE, by simp⟩

/-! ## The scan, in terms of the first verdict that does not reject -/

theorem scan_error_iff (vs : List Verdict) (e : JsError) :
    scan vs = .error e ↔
      ∃ before after, vs = before ++ Verdict.raises e :: after ∧
        ∀ v ∈ before, v = Verdict.rejects := by
  induction vs with
  | nil => simp [scan]
  | cons v rest ih =>
    cases v with
    | accepts =>
      simp only [scan]
      constructor
      · intro h
        cases h
      rintro ⟨before, after, h, hall⟩
      cases before with
      | nil => simp at h
      | cons b bs =>
        simp only [List.cons_append, List.cons.injEq] at h
        have := hall b (List.mem_cons_self _ _)
        rw [← h.1] at this
        cases this
    | rejects =>
      simp only [scan, ih]
      constructor
      · rintro ⟨before, after, h, hall⟩
        refine ⟨Verdict.rejects :: before, after, by simp [h], ?_⟩
        intro v hv
        rcases List.mem_cons.mp hv with hv | hv
        · exact hv
        · exact hall v hv
      · rintro ⟨before, after, h, hall⟩
        cases before with
        | nil => simp at h
        | cons b bs =>
          simp only [List.cons_append, List.cons.injEq] at h
          exact ⟨bs, after, h.2, fun v hv => hall v (List.mem_cons_of_mem _ hv)⟩
    | raises e' =>
      simp only [scan, Except.error.injEq]
      constructor
      · intro h
        subst h
        exact ⟨[], rest, rfl, by simp⟩
      · rintro ⟨before, after, h, hall⟩
        cases before with
        | nil =>
          simp only [List.nil_append, List.cons.injEq, Verdict.raises.injEq] at h
          exact h.1
        | cons b bs =>
          simp only [List.cons_append, List.cons.injEq] at h
          have := hall b (List.mem_cons_self _ _)
          rw [← h.1] at this
          cases this

theorem scan_true_iff (vs : List Verdict) :
    scan vs = .ok true ↔
      ∃ before after, vs = before ++ Verdict.accepts :: after ∧
        ∀ v ∈ before, v = Verdict.rejects := by
  induction vs with
  | nil => simp [scan]
  | cons v rest ih =>
    cases v with
    | accepts =>
      simp only [scan, true_iff]
      exact ⟨[], rest, rfl, by simp⟩
    | rejects =>
      simp only [scan, ih]
      constructor
      · rintro ⟨before, after, h, hall⟩
        refine ⟨Verdict.rejects :: before, after, by simp [h], ?_⟩
        intro v hv
        rcases List.mem_cons.mp hv with hv | hv
        · exact hv
        · exact hall v hv
      · rintro ⟨before, after, h, hall⟩
        cases before with
        | nil => simp at h
        | cons b bs =>
          simp only [List.cons_append, List.cons.injEq] at h
          exact ⟨bs, after, h.2, fun v hv => hall v (List.mem_cons_of_mem _ hv)⟩
    | raises e' =>
      simp only [scan]
      constructor
      · intro h
        cases h
      rintro ⟨before, after, h, hall⟩
      cases before with
      | nil => simp at h
      | cons b bs =>
        simp only [List.cons_append, List.cons.injEq] at h
        have := hall b (List.mem_cons_self _ _)
        rw [← h.1] at this
        cases this

theorem mem_verdictsOf_perm (L L' : List JsVal) (h : L.Perm L') (v : Verdict) :
    v ∈ verdictsOf L ↔ v ∈ verdictsOf L' := by
  simp only [mem_verdictsOf]
  constructor
  · rintro ⟨rule, hr, hv⟩
    exact ⟨rule, h.mem_iff.mp hr, hv⟩
  · rintro ⟨rule, hr, hv⟩
    exact ⟨rule, h.mem_iff.mpr hr, hv⟩

/-- When no verdict raises, the scan gives the same value for every
reordering of the rules. -/
theorem scan_perm (L L' : List JsVal) (h : L.Perm L')
    (hs : ∀ e, Verdict.raises e ∉ verdictsOf L) :
    scan (verdictsOf L') = scan (verdictsOf L) := by
  have hs' : ∀ e, Verdict.raises e ∉ verdictsOf L' :=
    fun e he => hs e ((mem_verdictsOf_perm L L' h _).mpr he)
  rw [scan_of_no_raise _ hs, scan_of_no_raise _ hs']
  congr 1
  exact decide_eq_decide.mpr (mem_verdictsOf_perm L L' h _).symm

theorem verdict_accepts (m : Option JsVal) (h : verdict m = .accepts) :
    (∃ test, m = some (regexp test) ∧ test "test.json" = true) ∨
    (∃ call v, m = some (func call) ∧ call "test.json" = .ok v ∧ falsy v = false) := by
  cases m with
  | none => simp [verdict] at h
  | some x =>
    cases x with
    | regexp test =>
      refine Or.inl ⟨test, rfl, ?_⟩
      simp only [verdict] at h
      cases ht : test "test.json" with
      | true => rfl
      | false => simp [ht] at h
    | func call =>
      simp only [verdict] at h
      cases hc : call "test.json" with
      | error e => simp [hc] at h
      | ok v =>
        refine Or.inr ⟨call, v, rfl, hc, ?_⟩
        simp only [hc] at h
        cases hf : falsy v with
        | false => rfl
        | true => simp [hf] at h
    | _ => simp [verdict] at h

/-! ## Theorems -/

/-- C1: without a post-processing hook, for either shape, any environment and
any user webpack configuration whose `entry` is absent or a sequence, the entry
sequence of the returned configuration is non-empty and its last element is the
internal entry path, `sourceDir` joined with `index`; and a configuration is
returned whenever the user's configuration is obtained without error, its
`module.loaders` is a sequence or absent and probing its rules raises no error. -/
theorem entry_ends_with_index (host : Host) (webpack2 : Bool) (config : GuideConfig)
    (env : String)
    (hHook : config.updateWebpackConfig = none)
    (hEntry : ∀ u, userConfig config env = .ok (some u) → (userSeq u "entry").isSome) :
    (∀ r, buildConfig host webpack2 config env = .ok r →
      ∃ entries, seqField r "entry" = some entries ∧ entries ≠ [] ∧
        entries.getLast? = some (str (indexEntry host))) ∧
    (∀ uo L b, userConfig config env = .ok uo → userLoaders (uo.getD []) = some L →
      reduceLoaders false L = .ok b → ∃ r, buildConfig host webpack2 config env = .ok r) := by
  have hE : ∀ uo, userConfig config env = .ok uo →
      ∃ E, userSeq (uo.getD []) "entry" = some E := by
    intro uo hu
    cases uo with
    | none => exact ⟨[], rfl⟩
    | some u => exact Option.isSome_iff_exists.mp (hEntry u hu)
  rw [buildConfig_noHook _ _ _ _ hHook]
  constructor
  · intro r hr
    obtain ⟨uo, hu, _, _, _⟩ := normalizedWith_ok _ _ _ _ _ _ hr
    obtain ⟨E, hE⟩ := hE uo hu
    exact ⟨_, entry_of_normalized _ _ _ _ _ _ _ _ hu hE hr, by simp, by simp⟩
  · intro uo L b hu hL hb
    obtain ⟨E, hE⟩ := hE uo hu
    exact normalizedWith_returns _ _ _ _ _ _ _ _ _ hu hE hL hb

/-- Witness for C1: a user configuration with one entry, development, Modern shape. -/
theorem entry_ends_with_index_witness :
    buildConfig exHost true exGuideUser "development" = .ok exModernDev ∧
    ∃ entries, seqField exModernDev "entry" = some entries ∧
      entries ≠ [] ∧ entries.getLast? = some (str (indexEntry exHost)) :=
  ⟨rfl, (entry_ends_with_index exHost true exGuideUser "development" rfl
    (by intro u hu; cases hu; rfl)).1 exModernDev rfl⟩

/-- C2: without a post-processing hook, for a user configuration with loaders
sequence `L` (empty when `module` or `module.loaders` is absent): when no rule of
`L` has a matcher that accepts the probe `test.json` the final loaders are `L`
followed by one rule, the default JSON rule `{test: /\.json$/, loader:
'json-loader'}`; when some rule of `L` has one, the final loaders are `L`; and a
configuration is returned whenever the user's `entry` is a sequence or absent
and probing the rules of `L` raises no error. -/
theorem json_rule_added_iff_missing (host : Host) (webpack2 : Bool) (config : GuideConfig)
    (env : String) (uo : Option Fields) (L : List JsVal)
    (hHook : config.updateWebpackConfig = none)
    (hu : userConfig config env = .ok uo)
    (hL : userLoaders (uo.getD []) = some L) :
    (∀ r, buildConfig host webpack2 config env = .ok r →
      ((∀ rule ∈ L, ∀ matcher ∈ ruleMatchers rule, verdict matcher ≠ .accepts) →
        ∃ d, IsDefaultJsonRule d ∧ loadersOf r = some (L ++ [d])) ∧
      ((∃ rule ∈ L, ∃ matcher ∈ ruleMatchers rule, verdict matcher = .accepts) →
        loadersOf r = some L)) ∧
    (∀ E b, userSeq (uo.getD []) "entry" = some E → scan (verdictsOf L) = .ok b →
      ∃ r, buildConfig host webpack2 config env = .ok r) := by
  rw [buildConfig_noHook _ _ _ _ hHook]
  constructor
  · intro r hr
    obtain ⟨b, hb, hres⟩ := loaders_of_normalized _ _ _ _ _ _ uo L hu hL hr
    have hb' := reduceLoaders_ok _ _ _ hb
    simp only [Bool.false_or] at hb'
    subst hb'
    constructor
    · intro hno
      have hany : L.any ruleAccepts = false := by
        rw [Bool.eq_false_iff]
        intro hacc
        obtain ⟨rule, hmem, hra⟩ := List.any_eq_true.mp hacc
        obtain ⟨m, hm, hv⟩ := (ruleAccepts_iff rule).mp hra
        exact hno rule hmem m hm hv
      exact ⟨jsonLoaderRule, isDefaultJsonRule_jsonLoaderRule, by simpa [hany] using hres⟩
    · rintro ⟨rule, hmem, m, hm, hv⟩
      have hany : L.any ruleAccepts = true :=
        List.any_eq_true.mpr ⟨rule, hmem, (ruleAccepts_iff rule).mpr ⟨m, hm, hv⟩⟩
      simpa [hany] using hres
  · intro E b hE hb
    exact normalizedWith_returns_of_scan _ _ _ _ _ _ _ _ _ hu hE hL hb

/-- Witness for C2: a user whose only rule is for style sheets gets the default
JSON rule after it, and a user whose rule lists a pattern for JSON files among
its matchers gets no default rule. -/
theorem json_rule_added_iff_missing_witness :
    (buildConfig exHost false exGuideUser "production" = .ok exLegacyProd ∧
      ∃ d, IsDefaultJsonRule d ∧ loadersOf exLegacyProd = some ([exCssRule] ++ [d])) ∧
    (∃ r, buildConfig exHost true exGuideList "production" = .ok r ∧
      loadersOf r = some [exListRule]) :=
  ⟨⟨rfl, ((json_rule_added_iff_missing exHost false exGuideUser "production"
      (some exUser) [exCssRule] rfl rfl rfl).1 exLegacyProd rfl).1
      (by
        intro rule hrule matcher hmatcher
        rw [List.mem_singleton] at hrule
        subst hrule
        simp only [ruleMatchers, exCssRule, lookup, matchersOfTest, if_true,
          List.mem_singleton] at hmatcher
        subst hmatcher
        decide)⟩,
   ⟨_, rfl,
    ((json_rule_added_iff_missing exHost true exGuideList "production"
      (some [("module", obj [("loaders", arr [exListRule])])]) [exListRule] rfl rfl rfl).1 _
      rfl).2
      ⟨exListRule, List.mem_singleton.mpr rfl,
        some (regexp (fun name => ".json".toList.isSuffixOf name.toList)),
        by simp [ruleMatchers, exListRule, lookup, matchersOfTest], by decide⟩⟩⟩

/-- C3: without a post-processing hook, whatever the user configuration holds
under `output`, the `output` of the returned configuration is the core's:
the guide's output directory with the two fixed file names; and a configuration
is returned whenever the user's configuration is obtained without error, its
`entry` and `module.loaders` are sequences or absent and probing its rules
raises no error. -/
theorem output_is_core_output (host : Host) (webpack2 : Bool) (config : GuideConfig)
    (env : String)
    (hHook : config.updateWebpackConfig = none) :
    (∀ r, buildConfig host webpack2 config env = .ok r →
      field r "output" = some (obj [("path", str config.styleguideDir),
        ("filename", str "build/bundle.js"), ("chunkFilename", str "build/[name].js")])) ∧
    (∀ uo E L b, userConfig config env = .ok uo → userSeq (uo.getD []) "entry" = some E →
      userLoaders (uo.getD []) = some L → reduceLoaders false L = .ok b →
      ∃ r, buildConfig host webpack2 config env = .ok r) := by
  rw [buildConfig_noHook _ _ _ _ hHook]
  constructor
  · intro r hr
    obtain ⟨uo, _, _, _, hk⟩ := normalizedWith_ok _ _ _ _ _ _ hr
    rw [hk "output" (by decide) (by decide)]
    simp [merged, lookup_core_output, safeLookup, protectedKeys, combine, coreOutput]
  · intro uo E L b hu hE hL hb
    exact normalizedWith_returns _ _ _ _ _ _ _ _ _ hu hE hL hb

/-- Witness for C3: the `output` that the user's function returns does not
reach the result. -/
theorem output_is_core_output_witness :
    userConfig exGuideFn "production"
      = .ok (some [("entry", arr [str "production.js"]), ("output", str "dist")]) ∧
    ∃ r, buildConfig exHost true exGuideFn "production" = .ok r ∧
      field r "output" = some (obj [("path", str "/out"),
        ("filename", str "build/bundle.js"), ("chunkFilename", str "build/[name].js")]) :=
  ⟨rfl, _, rfl, (output_is_core_output exHost true exGuideFn "production" rfl).1 _ rfl⟩

/-- Counterexample to C4: two guide configurations that differ only in the
user's protected `output` value give different results, in either shape,
because the result embeds the guide configuration with its `webpackConfig`. -/
theorem protected_value_reaches_result :
    omitKeys [("output", str "a")] protectedKeys = omitKeys [("output", str "b")] protectedKeys ∧
    exGuideOutB = { exGuideOutA with webpackConfig := some (.value [("output", str "b")]) } ∧
    buildConfig exHost false exGuideOutA "production"
      ≠ buildConfig exHost false exGuideOutB "production" ∧
    buildConfig exHost true exGuideOutA "production"
      ≠ buildConfig exHost true exGuideOutB "production" := by
  refine ⟨rfl, rfl, fun h => ?_, fun h => ?_⟩
  · have h1 : embeddedUserOutput (buildConfig exHost false exGuideOutA "production")
        = some (str "a") := rfl
    have h2 : embeddedUserOutput (buildConfig exHost false exGuideOutB "production")
        = some (str "b") := rfl
    rw [h, h2] at h1
    simp at h1
  · have h1 : embeddedUserOutput (buildConfig exHost true exGuideOutA "production")
        = some (str "a") := rfl
    have h2 : embeddedUserOutput (buildConfig exHost true exGuideOutB "production")
        = some (str "b") := rfl
    rw [h, h2] at h1
    simp at h1

/-- C4, amended: two guide configurations without a hook that are identical
except that their user webpack configurations differ only in the protected
keys give, in the same environment and shape, results that differ in nothing
but the embedded copy of the guide configuration: the second outcome is the
first with that copy, the top-level `styleguidist` in the Legacy shape and
`options.styleguidist` of the loader-options wrapper, the third plugin, in the
Modern shape, replaced by the second guide configuration, an error of the first
being the error of the second.  So every field other than the one that holds
the copy is equal in the two results. -/
theorem protected_keys_only_reach_embedded_guide (host : Host) (webpack2 : Bool)
    (c1 c2 : GuideConfig) (env : String) (webpackConfig2 : Option UserWebpackConfig)
    (hHook : c1.updateWebpackConfig = none)
    (hSame : c2 = { c1 with webpackConfig := webpackConfig2 })
    (hUser : (userConfig c1 env).map (Option.map (omitKeys · protectedKeys))
      = (userConfig c2 env).map (Option.map (omitKeys · protectedKeys))) :
    buildConfig host webpack2 c2 env
      = (buildConfig host webpack2 c1 env).map (storeGuide webpack2 c2.toJs) ∧
    (∀ r1 r2, buildConfig host webpack2 c1 env = .ok r1 →
      buildConfig host webpack2 c2 env = .ok r2 →
      ∀ k, k ≠ (if webpack2 then "plugins" else "styleguidist") → field r2 k = field r1 k) := by
  have hHook2 : c2.updateWebpackConfig = none := by rw [hSame]; exact hHook
  have hcore : ∀ g, coreFields host webpack2 c2 g env = coreFields host webpack2 c1 g env := by
    intro g
    rw [hSame]
    rfl
  clear hSame
  have hmerge : ∀ acc, userMerge acc c2 env = userMerge acc c1 env := by
    intro acc
    simp only [userMerge, bind, Except.bind]
    cases h1 : userConfig c1 env with
    | error e1 =>
      cases h2 : userConfig c2 env with
      | error e2 => simp_all [Except.map]
      | ok u2 => simp [h1, h2, Except.map] at hUser
    | ok u1 =>
      cases h2 : userConfig c2 env with
      | error e2 => simp [h1, h2, Except.map] at hUser
      | ok u2 =>
        simp only [h1, h2, Except.map, Except.ok.injEq] at hUser
        cases u1 with
        | none => cases u2 <;> simp_all
        | some f1 =>
          cases u2 with
          | none => simp at hUser
          | some f2 =>
            simp only [Option.map, Option.some.injEq] at hUser
            simp only [hUser]
  have hnorm : ∀ g, normalizedWith host webpack2 c2 g env
      = normalizedWith host webpack2 c1 g env := by
    intro g
    simp only [normalizedWith, envConfig_eq, hcore, bind, Except.bind, hmerge]
  have hmain : buildConfig host webpack2 c2 env
      = (buildConfig host webpack2 c1 env).map (storeGuide webpack2 c2.toJs) := by
    rw [buildConfig_noHook _ _ _ _ hHook, buildConfig_noHook _ _ _ _ hHook2]
    simp only [normalized]
    rw [hnorm, normalizedWith_storeGuide host webpack2 c1 c1.toJs c2.toJs env]
  refine ⟨hmain, ?_⟩
  intro r1 r2 h1 h2 k hk
  rw [hmain, h1] at h2
  simp only [Except.map, Except.ok.injEq] at h2
  subst h2
  cases webpack2 with
  | false =>
    simp only [Bool.false_eq_true, if_false] at hk
    rw [storeGuide_legacy]
    exact field_assign _ _ _ _ hk
  | true =>
    simp only [if_true] at hk
    simp only [storeGuide, if_true]
    split
    · exact field_assign _ _ _ _ hk
    · rfl

/-- Witness for the amended C4: the two guide configurations of the
counterexample, in the Legacy shape. -/
theorem protected_keys_only_reach_embedded_guide_witness :
    buildConfig exHost false exGuideOutB "production"
      = (buildConfig exHost false exGuideOutA "production").map
          (storeGuide false exGuideOutB.toJs) ∧
    (∀ r1 r2, buildConfig exHost false exGuideOutA "production" = .ok r1 →
      buildConfig exHost false exGuideOutB "production" = .ok r2 →
      ∀ k, k ≠ "styleguidist" → field r2 k = field r1 k) :=
  protected_keys_only_reach_embedded_guide exHost false exGuideOutA exGuideOutB "production"
    (some (.value [("output", str "b")])) rfl rfl rfl

/-- Counterexample to C5: a version with major component 3 is not mapped to
the Modern shape. -/
theorem major_three_is_legacy : isWebpack2 "3" = false := by
  decide

/-- C5, amended: major component 1 selects the Legacy shape, and a version
selects the Modern shape exactly when its major component is 2. -/
theorem isWebpack2_iff_major_two :
    isWebpack2 "1" = false ∧ isWebpack2 "2" = true ∧
    ∀ webpackVersion, isWebpack2 webpackVersion = true ↔ webpackVersion = "2" := by
  refine ⟨by decide, by decide, fun v => ?_⟩
  simp [isWebpack2]

/-- Counterexample to C6: a Modern-shape result holds the Legacy-only fields
`debug` and `resolve.root` when the user configuration sets them. -/
theorem modern_result_with_legacy_fields :
    ∃ r, buildConfig exHost true exGuideDebug "production" = .ok r ∧
      field r "debug" = some (bool true) ∧
      sub (field r "resolve") "root" = some (str "/src") :=
  ⟨_, rfl, rfl, rfl⟩

/-- C6, amended: without a post-processing hook the core itself never adds a
field of the other shape.  A Modern result has no `styleguidist`, its
`resolveLoader` is exactly `modules`, and `debug`, `resolve.root` and
`resolve.moduleDirectories` are what the user configuration holds there (absent
when it holds nothing).  A Legacy result has `resolveLoader` exactly
`modulesDirectories`, `resolve.modules` is what the user configuration holds
there, and its plugins are the core's Legacy plugins, none a loader-options
wrapper, followed by the user's plugins. -/
theorem other_shape_fields_only_from_user (host : Host) (webpack2 : Bool) (config : GuideConfig)
    (env : String) (r : JsVal) (uo : Option Fields)
    (hHook : config.updateWebpackConfig = none)
    (hu : userConfig config env = .ok uo)
    (hr : buildConfig host webpack2 config env = .ok r) :
    (webpack2 = true →
      field r "styleguidist" = none ∧
      field r "resolveLoader" = some (obj [("modules", loaderModulesDirectories host)]) ∧
      field r "debug" = lookup "debug" (uo.getD []) ∧
      sub (field r "resolve") "root" = sub (lookup "resolve" (uo.getD [])) "root" ∧
      sub (field r "resolve") "moduleDirectories"
        = sub (lookup "resolve" (uo.getD [])) "moduleDirectories") ∧
    (webpack2 = false →
      field r "resolveLoader"
        = some (obj [("modulesDirectories", loaderModulesDirectories host)]) ∧
      sub (field r "resolve") "modules" = sub (lookup "resolve" (uo.getD [])) "modules" ∧
      (∀ p ∈ corePlugins false config config.toJs env,
        isInstanceOf "webpack.LoaderOptionsPlugin" p = false) ∧
      ∀ P, userSeq (uo.getD []) "plugins" = some P →
        seqField r "plugins" = some (corePlugins false config config.toJs env ++ P)) := by
  rw [buildConfig_noHook _ _ _ _ hHook] at hr
  obtain ⟨uo', hu', _, _, hk⟩ := normalizedWith_ok _ _ _ _ _ _ hr
  rw [hu] at hu'
  cases hu'
  constructor
  · intro hw
    subst hw
    refine ⟨?_, ?_, ?_, ?_, ?_⟩
    · rw [hk "styleguidist" (by decide) (by decide)]
      simp [merged, lookup_core_styleguidist, safeLookup, protectedKeys, combine]
    · rw [hk "resolveLoader" (by decide) (by decide)]
      simp [merged, lookup_core_resolveLoader, safeLookup, protectedKeys, combine,
        coreResolveLoader, loaderModulesDirectories]
    · rw [hk "debug" (by decide) (by decide)]
      simp [merged, lookup_core_debug, safeLookup, protectedKeys, combine]
    · rw [hk "resolve" (by decide) (by decide)]
      exact sub_merged _ _ _ _ _ _ _ _ _ (by decide) (lookup_core_resolve _ _ _ _ _)
        (by simp [lookup])
    · rw [hk "resolve" (by decide) (by decide)]
      exact sub_merged _ _ _ _ _ _ _ _ _ (by decide) (lookup_core_resolve _ _ _ _ _)
        (by simp [lookup])
  · intro hw
    subst hw
    refine ⟨?_, ?_, ?_, ?_⟩
    · rw [hk "resolveLoader" (by decide) (by decide)]
      simp [merged, lookup_core_resolveLoader, safeLookup, protectedKeys, combine,
        coreResolveLoader, loaderModulesDirectories]
    · rw [hk "resolve" (by decide) (by decide)]
      exact sub_merged _ _ _ _ _ _ _ _ _ (by decide) (lookup_core_resolve _ _ _ _ _)
        (by simp [lookup])
    · intro p hp
      have hall : (corePlugins false config config.toJs env).all
          (fun p => !isInstanceOf "webpack.LoaderOptionsPlugin" p) = true := by
        cases h : (env == "production") <;> simp only [corePlugins, h] <;> rfl
      simpa using List.all_eq_true.mp hall p hp
    · intro P hP
      have := merged_seq host false config config.toJs env _ "plugins" _ P (by decide)
        (lookup_core_plugins _ _ _ _ _) hP
      simp [seqField, hk "plugins" (by decide) (by decide), this]

/-- Witness for the amended C6, Modern shape with a user who sets `debug`. -/
theorem other_shape_fields_only_from_user_witness :
    ∃ r, buildConfig exHost true exGuideDebug "development" = .ok r ∧
      field r "styleguidist" = none ∧
      field r "resolveLoader" = some (obj [("modules", loaderModulesDirectories exHost)]) ∧
      field r "debug" = some (bool true) :=
  ⟨_, rfl,
    ((other_shape_fields_only_from_user exHost true exGuideDebug "development" _ _ rfl rfl
      rfl).1 rfl).1,
    ((other_shape_fields_only_from_user exHost true exGuideDebug "development" _ _ rfl rfl
      rfl).1 rfl).2.1,
    ((other_shape_fields_only_from_user exHost true exGuideDebug "development" _ _ rfl rfl
      rfl).1 rfl).2.2.1⟩

/-- Counterexample to C7: in production the result holds the hot-reload client
and a hot-module-replacement plugin when the user configuration brings them. -/
theorem production_result_with_hot_reload :
    ∃ r, buildConfig exHost true exGuideHot "production" = .ok r ∧
      seqField r "entry" = some [str "/nm/react-dev-utils/webpackHotDevClient.js",
        str "/pkg/lib/index"] ∧
      str exHost.hotDevClient ∈ [str "/nm/react-dev-utils/webpackHotDevClient.js",
        str "/pkg/lib/index"] ∧
      ∃ plugins, seqField r "plugins" = some plugins ∧
        plugins.getLast? = some (inst "webpack.HotModuleReplacementPlugin" []) ∧
        inst "webpack.HotModuleReplacementPlugin" [] ∈ plugins :=
  ⟨_, rfl, rfl, List.mem_cons_self _ _, _, rfl, rfl, by simp⟩

/-- C7, amended: without a post-processing hook, for a user configuration whose
`entry` and `plugins` are sequences or absent: in production the core adds
neither the hot-reload client nor the hot-module-replacement plugin, the entry
sequence being the user's entries followed by the internal entry and the plugins
being the core's production plugins, none of them the hot-module-replacement
plugin, followed by the user's plugins; in any other environment the entry
sequence is the hot-reload client, the user's entries and the internal entry,
so it holds the hot-reload client, and the plugins are the core's plugins
followed by the user's and hold the plugin
`new webpack.HotModuleReplacementPlugin()`.  A configuration is returned
whenever the user's `module.loaders` is a sequence or absent and probing its
rules raises no error. -/
theorem hot_reload_added_only_outside_production (host : Host) (webpack2 : Bool)
    (config : GuideConfig) (env : String) (uo : Option Fields) (E P : List JsVal)
    (hHook : config.updateWebpackConfig = none)
    (hu : userConfig config env = .ok uo)
    (hE : userSeq (uo.getD []) "entry" = some E)
    (hP : userSeq (uo.getD []) "plugins" = some P) :
    (∀ r, buildConfig host webpack2 config env = .ok r →
      (env = "production" →
        seqField r "entry" = some (E ++ [str (indexEntry host)]) ∧
        seqField r "plugins"
          = some (corePlugins webpack2 config config.toJs "production" ++ P) ∧
        (corePlugins webpack2 config config.toJs "production").any
          (isInstanceOf "webpack.HotModuleReplacementPlugin") = false) ∧
      (env ≠ "production" →
        ∃ entries plugins, seqField r "entry" = some entries ∧
          entries = [str host.hotDevClient] ++ E ++ [str (indexEntry host)] ∧
          str host.hotDevClient ∈ entries ∧
          seqField r "plugins" = some plugins ∧
          plugins = corePlugins webpack2 config config.toJs env ++ P ∧
          inst "webpack.HotModuleReplacementPlugin" [] ∈ plugins)) ∧
    (∀ L b, userLoaders (uo.getD []) = some L → scan (verdictsOf L) = .ok b →
      ∃ r, buildConfig host webpack2 config env = .ok r) := by
  rw [buildConfig_noHook _ _ _ _ hHook]
  constructor
  · intro r hr
    have hentry := entry_of_normalized _ _ _ _ _ _ _ _ hu hE hr
    have hplugins := plugins_of_normalized _ _ _ _ _ _ _ _ hu hP hr
    constructor
    · intro henv
      subst henv
      refine ⟨by simpa [coreEntry] using hentry, hplugins, ?_⟩
      cases webpack2 <;> rfl
    · intro henv
      have h : (env == "production") = false := by simpa using henv
      refine ⟨_, _, hentry, ?_, ?_, hplugins, rfl, ?_⟩
      · simp [coreEntry, h]
      · simp [coreEntry, h]
      · simp [corePlugins, h]
  · intro L b hL hb
    exact normalizedWith_returns_of_scan _ _ _ _ _ _ _ _ _ hu hE hL hb

/-- Witness for the amended C7: development, Legacy shape. -/
theorem hot_reload_added_only_outside_production_witness :
    buildConfig exHost false exGuideUser "development" = .ok exLegacyDev ∧
    ∃ entries plugins, seqField exLegacyDev "entry" = some entries ∧
      entries = [str "/nm/react-dev-utils/webpackHotDevClient.js"] ++ [str "polyfill.js"]
        ++ [str "/pkg/lib/index"] ∧
      str "/nm/react-dev-utils/webpackHotDevClient.js" ∈ entries ∧
      seqField exLegacyDev "plugins" = some plugins ∧
      plugins = corePlugins false exGuideUser exGuideUser.toJs "development" ++ [] ∧
      inst "webpack.HotModuleReplacementPlugin" [] ∈ plugins :=
  ⟨rfl, ((hot_reload_added_only_outside_production exHost false exGuideUser "development"
    (some exUser) [str "polyfill.js"] [] rfl rfl rfl rfl).1 exLegacyDev rfl).2 (by decide)⟩

/-- C8: for an accumulated configuration and a user configuration whose
`entry`, `module.loaders` and `plugins` are sequences (the user's read as empty
when absent), the user merge returns a configuration in which each of the three
fields is the accumulated sequence followed by the user's sequence. -/
theorem user_sequences_are_appended (acc : Fields) (config : GuideConfig) (env : String)
    (uo : Option Fields) (Ae Al Ap Ue Ul Up : List JsVal)
    (hu : userConfig config env = .ok uo)
    (hAe : seqField (obj acc) "entry" = some Ae)
    (hAl : loadersOf (obj acc) = some Al)
    (hAp : seqField (obj acc) "plugins" = some Ap)
    (hUe : userSeq (uo.getD []) "entry" = some Ue)
    (hUl : userLoaders (uo.getD []) = some Ul)
    (hUp : userSeq (uo.getD []) "plugins" = some Up) :
    ∃ r, userMerge (obj acc) config env = .ok r ∧
      seqField r "entry" = some (Ae ++ Ue) ∧
      loadersOf r = some (Al ++ Ul) ∧
      seqField r "plugins" = some (Ap ++ Up) := by
  have hex : ∃ r, userMerge (obj acc) config env = .ok r := by
    cases uo <;> simp [userMerge, hu, bind, Except.bind, pure, Except.pure]
  obtain ⟨r, hr⟩ := hex
  obtain ⟨uo', hu', hf⟩ := userMerge_ok _ _ _ _ hr
  rw [hu] at hu'
  cases hu'
  refine ⟨r, hr, ?_, ?_, ?_⟩
  · simp [seqField, hf "entry", combine_seq acc _ "entry" Ae Ue (by decide) hAe hUe]
  · obtain ⟨module, hm, hl⟩ := combine_loaders acc _ Al Ul hAl hUl
    simp [loadersOf, hf "module", hm, hl]
  · simp [seqField, hf "plugins", combine_seq acc _ "plugins" Ap Up (by decide) hAp hUp]

/-- Witness for C8: the development configuration of the Legacy shape merged
with a user configuration that has one entry and one rule. -/
theorem user_sequences_are_appended_witness :
    ∃ r, userMerge (obj (coreFields exHost false exGuideUser exGuideUser.toJs "development"))
        exGuideUser "development" = .ok r ∧
      seqField r "entry" = some ([str exHost.hotDevClient] ++ [str "polyfill.js"]) ∧
      loadersOf r = some ([] ++ [exCssRule]) ∧
      seqField r "plugins" = some ([htmlWebpackPlugin exGuideUser, definePlugin "development",
        hotModuleReplacementPlugin] ++ []) :=
  user_sequences_are_appended _ exGuideUser "development" (some exUser) _ _ _ _ _ _
    rfl rfl rfl rfl rfl rfl rfl

/-- C9: in the user merge the user wins on conflict.  With `acc` the
configuration after the environment overlay and `r` the merged one: a
non-protected key whose user value is a scalar holds the user's value in `r`,
also when `acc` had set it; a key the user does not set keeps the value of
`acc`; a non-protected key set only by the user holds the user's value.  In
particular a scalar user `devtool` is the `devtool` of the returned
configuration. -/
theorem user_wins_on_conflict (host : Host) (webpack2 : Bool) (config : GuideConfig)
    (env : String) (uo : Option Fields) (acc r : JsVal)
    (hu : userConfig config env = .ok uo)
    (hacc : envConfig host webpack2 config config.toJs env = .ok acc)
    (hr : userMerge acc config env = .ok r) :
    (∀ k v, k ∉ protectedKeys → lookup k (uo.getD []) = some v → isScalar v = true →
      field r k = some v) ∧
    (∀ k, lookup k (uo.getD []) = none → field r k = field acc k) ∧
    (∀ k v, k ∉ protectedKeys → field acc k = none → lookup k (uo.getD []) = some v →
      field r k = some v) ∧
    (∀ v final, lookup "devtool" (uo.getD []) = some v → isScalar v = true →
      config.updateWebpackConfig = none → buildConfig host webpack2 config env = .ok final →
      field final "devtool" = some v) := by
  rw [envConfig_eq] at hacc
  cases hacc
  obtain ⟨uo', hu', hf⟩ := userMerge_ok _ _ _ _ hr
  rw [hu] at hu'
  cases hu'
  refine ⟨?_, ?_, ?_, ?_⟩
  · intro k v hk hv hs
    rw [hf k, safeLookup_of_not_protected k _ hk, hv]
    cases lookup k (coreFields host webpack2 config config.toJs env) <;>
      simp [combine, merge_scalar _ v hs]
  · intro k hk
    rw [hf k]
    simp only [safeLookup, hk, field]
    cases lookup k (coreFields host webpack2 config config.toJs env) <;> simp [combine]
  · intro k v hk hacc hv
    simp only [field] at hacc
    rw [hf k, safeLookup_of_not_protected k _ hk, hv, hacc]
    rfl
  · intro v final hv hs hHook hfinal
    rw [buildConfig_noHook _ _ _ _ hHook] at hfinal
    obtain ⟨uo', hu', _, _, hk⟩ := normalizedWith_ok _ _ _ _ _ _ hfinal
    rw [hu] at hu'
    cases hu'
    rw [hk "devtool" (by decide) (by decide), merged,
      safeLookup_of_not_protected _ _ (by decide), hv]
    cases lookup "devtool" (coreFields host webpack2 config config.toJs env) <;>
      simp [combine, merge_scalar _ v hs]

/-- Witness for C9: the user's `devtool` replaces `eval` in development. -/
theorem user_wins_on_conflict_witness :
    field (obj (coreFields exHost true exGuideUser exGuideUser.toJs "development")) "devtool"
      = some (str "eval") ∧
    lookup "devtool" exUser = some (str "source-map") ∧
    buildConfig exHost true exGuideUser "development" = .ok exModernDev ∧
    field exModernDev "devtool" = some (str "source-map") :=
  ⟨rfl, rfl, rfl,
    (user_wins_on_conflict exHost true exGuideUser "development" (some exUser) _ _ rfl rfl
      rfl).2.2.2 (str "source-map") exModernDev rfl rfl rfl rfl⟩

/-- Counterexample to C10: the configuration that the hook receives is not the
value `buildConfig` returns for the same input without the hook.  The hook of
`exGuideHookProbe` reads the guide configuration embedded in its argument: inside
`buildConfig` it finds the hook there, on the value returned without the hook
it finds none. -/
theorem hook_argument_differs_from_hookless_result :
    buildConfig exHost false exGuideHookProbe "production" = .ok (str "hook present") ∧
    (buildConfig exHost false { exGuideHookProbe with updateWebpackConfig := none }
        "production").bind (fun N => exHookProbe.run N "production")
      = .ok (str "hook absent") ∧
    buildConfig exHost false exGuideHookProbe "production"
      ≠ (buildConfig exHost false { exGuideHookProbe with updateWebpackConfig := none }
          "production").bind (fun N => exHookProbe.run N "production") := by
  refine ⟨rfl, rfl, fun h => ?_⟩
  have h1 : buildConfig exHost false exGuideHookProbe "production"
      = .ok (str "hook present") := rfl
  have h2 : (buildConfig exHost false { exGuideHookProbe with updateWebpackConfig := none }
      "production").bind (fun N => exHookProbe.run N "production")
      = .ok (str "hook absent") := rfl
  rw [h1, h2] at h
  simp at h

/-- C10, amended: when the guide configuration has a post-processing hook `h`,
`buildConfig` calls `h` exactly once, with the normalized configuration `N` and
the environment name, and returns what that call returns or throws.  `N` has a
JSON loader and ends its entries with the internal entry path; it is the value
`buildConfig` returns for the same input without the hook, except that its
embedded copy of the guide configuration is the guide configuration as passed,
hook included.  When the normalization fails, `h` is not called and that error
is the outcome. -/
theorem hook_called_once_with_normalized (host : Host) (webpack2 : Bool) (config : GuideConfig)
    (env : String) (h : Hook)
    (hHook : config.updateWebpackConfig = some h) :
    (buildConfigCalls host webpack2 config env).1 = buildConfig host webpack2 config env ∧
    (∀ N0, buildConfig host webpack2 { config with updateWebpackConfig := none } env = .ok N0 →
      ∃ N, N = storeGuide webpack2 config.toJs N0 ∧
        normalized host webpack2 config env = .ok N ∧
        (buildConfigCalls host webpack2 config env).2 = [(N, env)] ∧
        buildConfig host webpack2 config env = h.run N env ∧
        hasJsonLoader N = .ok true ∧
        ∃ entries, seqField N "entry" = some entries ∧
          entries.getLast? = some (str (indexEntry host))) ∧
    (∀ e, buildConfig host webpack2 { config with updateWebpackConfig := none } env = .error e →
      (buildConfigCalls host webpack2 config env).2 = [] ∧
      buildConfig host webpack2 config env = .error e) := by
  have hn : normalized host webpack2 config env
      = (buildConfig host webpack2 { config with updateWebpackConfig := none } env).map
          (storeGuide webpack2 config.toJs) := by
    rw [buildConfig_noHook host webpack2 { config with updateWebpackConfig := none } env rfl]
    simp only [normalized]
    exact normalizedWith_storeGuide host webpack2 config _ config.toJs env
  refine ⟨?_, ?_, ?_⟩
  · simp only [buildConfigCalls, buildConfig, hHook, bind, Except.bind]
    cases normalized host webpack2 config env <;> rfl
  · intro N0 h0
    rw [h0] at hn
    simp only [Except.map] at hn
    refine ⟨_, rfl, hn, ?_, ?_, hasJsonLoader_of_normalized _ _ _ _ _ _ hn,
      last_entry_of_normalized _ _ _ _ _ _ hn⟩
    · simp only [buildConfigCalls, hn, hHook]
    · simp only [buildConfig, hn, hHook, bind, Except.bind]
  · intro e h0
    rw [h0] at hn
    simp only [Except.map] at hn
    constructor
    · simp only [buildConfigCalls, hn]
    · simp only [buildConfig, hn, bind, Except.bind]

/-- Witness for the amended C10: the hook's value is returned as it is, without
the fields of the normalized configuration that the hook dropped. -/
theorem hook_called_once_with_normalized_witness :
    buildConfig exHost true exGuideHook "development"
      = .ok (obj [("entry", arr [str "/nm/react-dev-utils/webpackHotDevClient.js",
          str "polyfill.js", str "/pkg/lib/index"]), ("env", str "development")]) ∧
    buildConfig exHost true { exGuideHook with updateWebpackConfig := none } "development"
      = .ok exModernDev ∧
    ∃ N, N = storeGuide true exGuideHook.toJs exModernDev ∧
      normalized exHost true exGuideHook "development" = .ok N ∧
      (buildConfigCalls exHost true exGuideHook "development").2 = [(N, "development")] ∧
      buildConfig exHost true exGuideHook "development" = exHook.run N "development" ∧
      hasJsonLoader N = .ok true ∧
      ∃ entries, seqField N "entry" = some entries ∧
        entries.getLast? = some (str (indexEntry exHost)) :=
  ⟨rfl, rfl,
    (hook_called_once_with_normalized exHost true exGuideHook "development" exHook rfl).2.1
      exModernDev rfl⟩

/-- C11: without a post-processing hook, for either shape, any environment and
any user configuration, `hasJsonLoader` is true of the returned configuration,
and its loaders hold a rule with a matcher that accepts the probe `test.json`: a
pattern that matches it or a predicate that returns a value that is not falsy
on it; and a configuration is returned whenever the user's configuration is
obtained without error, its `entry` and `module.loaders` are sequences or
absent and probing its rules raises no error. -/
theorem result_has_json_loader (host : Host) (webpack2 : Bool) (config : GuideConfig)
    (env : String)
    (hHook : config.updateWebpackConfig = none) :
    (∀ r, buildConfig host webpack2 config env = .ok r →
      hasJsonLoader r = .ok true ∧
      ∃ loaders rule matcher, loadersOf r = some loaders ∧ rule ∈ loaders ∧
        matcher ∈ ruleMatchers rule ∧
        ((∃ test, matcher = some (regexp test) ∧ test "test.json" = true) ∨
         (∃ call v, matcher = some (func call) ∧ call "test.json" = .ok v ∧
           falsy v = false))) ∧
    (∀ uo E L b, userConfig config env = .ok uo → userSeq (uo.getD []) "entry" = some E →
      userLoaders (uo.getD []) = some L → scan (verdictsOf L) = .ok b →
      ∃ r, buildConfig host webpack2 config env = .ok r) := by
  rw [buildConfig_noHook _ _ _ _ hHook]
  constructor
  · intro r hr
    refine ⟨hasJsonLoader_of_normalized _ _ _ _ _ _ hr, ?_⟩
    obtain ⟨uo, _, _, ⟨module, L, b, _, _, hb, hres⟩, _⟩ := normalizedWith_ok _ _ _ _ _ _ hr
    have hb' := reduceLoaders_ok L false b hb
    cases b with
    | true =>
      simp only [if_true] at hres
      simp only [Bool.false_or] at hb'
      obtain ⟨rule, hmem, hacc⟩ := List.any_eq_true.mp hb'.symm
      obtain ⟨m, hm, hv⟩ := (ruleAccepts_iff rule).mp hacc
      exact ⟨L, rule, m, hres, hmem, hm, verdict_accepts m hv⟩
    | false =>
      simp only [Bool.false_eq_true, if_false] at hres
      obtain ⟨m, hm, hv⟩ := (ruleAccepts_iff jsonLoaderRule).mp jsonLoaderRule_accepts
      exact ⟨L ++ [jsonLoaderRule], jsonLoaderRule, m, hres, by simp, hm, verdict_accepts m hv⟩
  · intro uo E L b hu hE hL hb
    exact normalizedWith_returns_of_scan _ _ _ _ _ _ _ _ _ hu hE hL hb

/-- Witness for C11: a user whose only rule has a predicate that returns
`false`; the rule does not accept the probe and the default JSON rule is
added. -/
theorem result_has_json_loader_witness :
    ∃ r, buildConfig exHost false exGuideFalse "production" = .ok r ∧
      loadersOf r = some [exFalseRule,
        obj [("test", regexp (fun name => ".json".toList.isSuffixOf name.toList)),
             ("loader", str "json-loader")]] ∧
      hasJsonLoader r = .ok true ∧
      ∃ loaders rule matcher, loadersOf r = some loaders ∧ rule ∈ loaders ∧
        matcher ∈ ruleMatchers rule ∧
        ((∃ test, matcher = some (regexp test) ∧ test "test.json" = true) ∨
         (∃ call v, matcher = some (func call) ∧ call "test.json" = .ok v ∧
           falsy v = false)) :=
  ⟨_, rfl, rfl, (result_has_json_loader exHost false exGuideFalse "production" rfl).1 _ rfl⟩

/-- Counterexample to C12: applying the entry fix-up twice to a configuration
with an empty entry sequence gives the internal entry path twice, applying it
once gives it once. -/
theorem addEntry_twice_differs :
    addEntry exHost (obj [("entry", arr [])])
      = .ok (obj [("entry", arr [str "/pkg/lib/index"])]) ∧
    (addEntry exHost (obj [("entry", arr [])]) >>= addEntry exHost)
      = .ok (obj [("entry", arr [str "/pkg/lib/index", str "/pkg/lib/index"])]) ∧
    (addEntry exHost (obj [("entry", arr [])]) >>= addEntry exHost)
      ≠ addEntry exHost (obj [("entry", arr [])]) := by
  refine ⟨rfl, rfl, fun h => ?_⟩
  have h1 : (addEntry exHost (obj [("entry", arr [])]) >>= addEntry exHost)
      = .ok (obj [("entry", arr [str "/pkg/lib/index", str "/pkg/lib/index"])]) := rfl
  have h2 : addEntry exHost (obj [("entry", arr [])])
      = .ok (obj [("entry", arr [str "/pkg/lib/index"])]) := rfl
  rw [h1, h2] at h
  simp at h

/-- C12, amended: the entry fix-up is not idempotent; each application appends
the internal entry path once more.  For a configuration whose entry sequence is
`E` it returns a configuration with entry sequence `E` followed by the path and
all other fields unchanged, and a second application returns one with `E`
followed by the path twice. -/
theorem addEntry_appends_each_time (host : Host) (c : JsVal) (E : List JsVal)
    (hE : seqField c "entry" = some E) :
    ∃ r r', addEntry host c = .ok r ∧
      seqField r "entry" = some (E ++ [str (indexEntry host)]) ∧
      (∀ k, k ≠ "entry" → field r k = field c k) ∧
      addEntry host r = .ok r' ∧
      seqField r' "entry" = some (E ++ [str (indexEntry host), str (indexEntry host)]) := by
  obtain ⟨r, hr⟩ := addEntry_returns host c E hE
  obtain ⟨E1, hE1, hr1, hframe⟩ := addEntry_ok host c r hr
  rw [hE] at hE1
  cases hE1
  obtain ⟨r', hr'⟩ := addEntry_returns host r _ hr1
  obtain ⟨E2, hE2, hr2, _⟩ := addEntry_ok host r r' hr'
  rw [hr1] at hE2
  cases hE2
  exact ⟨r, r', hr, hr1, hframe, hr', by simpa using hr2⟩

/-- Witness for the amended C12: the configuration returned for `exGuideUser`. -/
theorem addEntry_appends_each_time_witness :
    ∃ r r', addEntry exHost exModernDev = .ok r ∧
      seqField r "entry" = some ([str exHost.hotDevClient, str "polyfill.js",
        str "/pkg/lib/index"] ++ [str (indexEntry exHost)]) ∧
      (∀ k, k ≠ "entry" → field r k = field exModernDev k) ∧
      addEntry exHost r = .ok r' ∧
      seqField r' "entry" = some ([str exHost.hotDevClient, str "polyfill.js",
        str "/pkg/lib/index"] ++ [str (indexEntry exHost), str (indexEntry exHost)]) :=
  addEntry_appends_each_time exHost exModernDev _ rfl

/-- C13: the JSON fix-up is idempotent: applying it to its own result returns
that result unchanged, an error of the first application being the outcome of
both; so for a configuration with loaders `L` whose probing raises no error the
loaders after one or two applications are `L`, followed by the single default
rule when no rule of `L` accepts the probe. -/
theorem addJsonLoader_idempotent (c : JsVal) :
    (addJsonLoader c >>= addJsonLoader) = addJsonLoader c ∧
    (∀ L b, loadersOf c = some L → reduceLoaders false L = .ok b →
      ∃ r, addJsonLoader c = .ok r ∧ addJsonLoader r = .ok r ∧
        loadersOf r = some (if b then L else L ++ [jsonLoaderRule])) := by
  constructor
  · cases h : addJsonLoader c with
    | error e => rfl
    | ok r =>
      have := addJsonLoader_of_hasJsonLoader r (hasJsonLoader_addJsonLoader c r h)
      simpa [bind, Except.bind] using this
  · intro L b hL hb
    obtain ⟨r, hr⟩ := addJsonLoader_returns c L b hL hb
    obtain ⟨L', b', hL', hb', hres, _⟩ := addJsonLoader_ok' c r hr
    rw [hL] at hL'
    cases hL'
    rw [hb] at hb'
    cases hb'
    exact ⟨r, hr, addJsonLoader_of_hasJsonLoader r (hasJsonLoader_addJsonLoader c r hr), hres⟩

/-- Witness for C13: a configuration whose only rule is for style sheets. -/
theorem addJsonLoader_idempotent_witness :
    ∃ r, addJsonLoader (obj [("module", obj [("loaders", arr [exCssRule])])]) = .ok r ∧
      addJsonLoader r = .ok r ∧
      loadersOf r = some ([exCssRule] ++ [jsonLoaderRule]) :=
  (addJsonLoader_idempotent (obj [("module", obj [("loaders", arr [exCssRule])])])).2
    [exCssRule] false rfl rfl

/-- C14: for a guide configuration with no user webpack configuration and no
post-processing hook, in either shape, `buildConfig` with environment
`production` returns a configuration with `devtool` false, `cache` false,
`output.path` the guide's output directory, exactly one loader, the default
JSON rule `{test: /\.json$/, loader: 'json-loader'}`, and among its plugins the
minifier `new webpack.optimize.UglifyJsPlugin(...)` with the options of lines
130 to 142. -/
theorem production_scenario (host : Host) (webpack2 : Bool) (config : GuideConfig)
    (hUser : config.webpackConfig = none) (hHook : config.updateWebpackConfig = none) :
    ∃ r d plugins, buildConfig host webpack2 config "production" = .ok r ∧
      field r "devtool" = some (bool false) ∧
      field r "cache" = some (bool false) ∧
      sub (field r "output") "path" = some (str config.styleguideDir) ∧
      IsDefaultJsonRule d ∧ loadersOf r = some [d] ∧
      seqField r "plugins" = some plugins ∧
      inst "webpack.optimize.UglifyJsPlugin"
        [("compress", obj [("keep_fnames", bool true), ("screw_ie8", bool true),
                           ("warnings", bool false)]),
         ("output", obj [("comments", bool false)]),
         ("mangle", obj [("keep_fnames", bool true)])] ∈ plugins := by
  obtain ⟨r, hr, _, hl, hp, hk⟩ := buildConfig_noUser host webpack2 config "production" hUser hHook
  refine ⟨r, jsonLoaderRule, _, hr, ?_, ?_, ?_, isDefaultJsonRule_jsonLoaderRule, hl, hp, ?_⟩
  · rw [hk "devtool" (by decide) (by decide)]
    cases webpack2 <;> rfl
  · rw [hk "cache" (by decide) (by decide)]
    cases webpack2 <;> rfl
  · rw [hk "output" (by decide) (by decide), lookup_core_output]
    rfl
  · cases webpack2 <;> simp [corePlugins]

/-- Witness for C14: title `Guide`, template `t.html`, output directory `/out`,
theme `eclipse`, in the Modern shape; its one loader is written out. -/
theorem production_scenario_witness :
    (∃ r, buildConfig exHost true exGuide "production" = .ok r ∧
      sub (field r "output") "path" = some (str "/out") ∧
      loadersOf r = some
        [obj [("test", regexp (fun name => ".json".toList.isSuffixOf name.toList)),
              ("loader", str "json-loader")]]) ∧
    ∃ r d plugins, buildConfig exHost true exGuide "production" = .ok r ∧
      field r "devtool" = some (bool false) ∧
      field r "cache" = some (bool false) ∧
      sub (field r "output") "path" = some (str "/out") ∧
      IsDefaultJsonRule d ∧ loadersOf r = some [d] ∧
      seqField r "plugins" = some plugins ∧
      inst "webpack.optimize.UglifyJsPlugin"
        [("compress", obj [("keep_fnames", bool true), ("screw_ie8", bool true),
                           ("warnings", bool false)]),
         ("output", obj [("comments", bool false)]),
         ("mangle", obj [("keep_fnames", bool true)])] ∈ plugins :=
  ⟨⟨_, rfl, rfl, rfl⟩, production_scenario exHost true exGuide rfl rfl⟩

/-- C15: for a guide configuration with no user webpack configuration and no
post-processing hook, in either shape, `buildConfig` with environment
`development` returns a configuration whose entry sequence is the hot-reload
client followed by the internal entry path, so it begins with the first and
ends with the second, with `cache` true, `devtool` `eval` and `stats` equal to
`{colors: true, reasons: true}`. -/
theorem development_scenario (host : Host) (webpack2 : Bool) (config : GuideConfig)
    (hUser : config.webpackConfig = none) (hHook : config.updateWebpackConfig = none) :
    ∃ r entries, buildConfig host webpack2 config "development" = .ok r ∧
      seqField r "entry" = some entries ∧
      entries = [str host.hotDevClient, str (indexEntry host)] ∧
      entries.head? = some (str host.hotDevClient) ∧
      entries.getLast? = some (str (indexEntry host)) ∧
      field r "cache" = some (bool true) ∧
      field r "devtool" = some (str "eval") ∧
      field r "stats" = some (obj [("colors", bool true), ("reasons", bool true)]) := by
  obtain ⟨r, hr, he, _, _, hk⟩ := buildConfig_noUser host webpack2 config "development" hUser hHook
  refine ⟨r, _, hr, he, rfl, rfl, rfl, ?_, ?_, ?_⟩
  · rw [hk "cache" (by decide) (by decide)]
    cases webpack2 <;> rfl
  · rw [hk "devtool" (by decide) (by decide)]
    cases webpack2 <;> rfl
  · rw [hk "stats" (by decide) (by decide)]
    cases webpack2 <;> rfl

/-- Witness for C15: the same guide configuration, Legacy shape. -/
theorem development_scenario_witness :
    ∃ r entries, buildConfig exHost false exGuide "development" = .ok r ∧
      seqField r "entry" = some entries ∧
      entries = [str "/nm/react-dev-utils/webpackHotDevClient.js", str "/pkg/lib/index"] ∧
      entries.head? = some (str "/nm/react-dev-utils/webpackHotDevClient.js") ∧
      entries.getLast? = some (str "/pkg/lib/index") ∧
      field r "cache" = some (bool true) ∧
      field r "devtool" = some (str "eval") ∧
      field r "stats" = some (obj [("colors", bool true), ("reasons", bool true)]) :=
  development_scenario exHost false exGuide rfl rfl

/-- Counterexample to C16: the user's webpack configuration is a value, there
is no hook, `entry` is absent and `module.loaders` is a sequence, yet
`buildConfig` returns no configuration: the error that the rule's matcher
raises on the probe is the outcome. -/
theorem matcher_error_stops_buildConfig :
    userConfig exGuideThrow "production" = .ok (some exUserThrow) ∧
    exGuideThrow.updateWebpackConfig = none ∧
    userSeq exUserThrow "entry" = some [] ∧
    userLoaders exUserThrow = some [exThrowRule] ∧
    buildConfig exHost true exGuideThrow "production" = .error "boom" :=
  ⟨rfl, rfl, rfl, rfl, rfl⟩

/-- C16, amended: an error of the user's `webpackConfig` function is the
outcome of `buildConfig`, and so is an error of the post-processing hook on the
normalized configuration.  When the user's configuration is obtained and its
`entry` and `module.loaders` are sequences or absent, the probe of the rules
decides: an error that the probe meets before a matcher accepts is the outcome
of `buildConfig`; otherwise the normalized configuration exists, and
`buildConfig` returns it when there is no hook and returns what the hook returns
when the hook returns. -/
theorem user_errors_propagate (host : Host) (webpack2 : Bool) (config : GuideConfig)
    (env : String) :
    (∀ f e, config.webpackConfig = some (.function f) → f env = .error e →
      buildConfig host webpack2 config env = .error e) ∧
    (∀ h N e, config.updateWebpackConfig = some h →
      normalized host webpack2 config env = .ok N → h.run N env = .error e →
      buildConfig host webpack2 config env = .error e) ∧
    (∀ uo E L, userConfig config env = .ok uo → userSeq (uo.getD []) "entry" = some E →
      userLoaders (uo.getD []) = some L →
      (∀ e, scan (verdictsOf L) = .error e →
        buildConfig host webpack2 config env = .error e) ∧
      (∀ b, scan (verdictsOf L) = .ok b →
        ∃ N, normalized host webpack2 config env = .ok N ∧
          (config.updateWebpackConfig = none →
            buildConfig host webpack2 config env = .ok N) ∧
          (∀ h r, config.updateWebpackConfig = some h → h.run N env = .ok r →
            buildConfig host webpack2 config env = .ok r))) := by
  refine ⟨?_, ?_, ?_⟩
  · intro f e hf he
    have hu : userConfig config env = .error e := by
      simp [userConfig, hf, he, bind, Except.bind]
    simp [buildConfig, normalized, normalizedWith, envConfig_eq, userMerge, hu, bind,
      Except.bind]
  · intro h N e hh hN he
    simp [buildConfig, hN, hh, he, bind, Except.bind]
  · intro uo E L hu hE hL
    constructor
    · intro e hs
      have hN : normalized host webpack2 config env = .error e :=
        normalizedWith_probe_error host webpack2 config config.toJs env uo L e hu hL hs
      simp [buildConfig, hN, bind, Except.bind]
    · intro b hs
      obtain ⟨N, hN⟩ := normalizedWith_returns_of_scan host webpack2 config config.toJs env
        uo E L b hu hE hL hs
      refine ⟨N, hN, ?_, ?_⟩
      · intro hh
        rw [buildConfig_noHook _ _ _ _ hh]
        exact hN
      · intro h r hh hr
        have hN' : normalized host webpack2 config env = .ok N := hN
        simp [buildConfig, hN', hh, hr, bind, Except.bind]

/-- Witness for the amended C16: a user function that throws; a rule that is
itself a pattern, whose inherited `test` throws when called without a receiver;
and a hook on a user configuration whose rules raise no error. -/
theorem user_errors_propagate_witness :
    buildConfig exHost false exGuideFnThrow "development" = .error "no config" ∧
    buildConfig exHost false
        { exGuide with webpackConfig := some (.value
            [("module", obj [("loaders", arr [regexp (fun _ => true)])])]) } "production"
      = .error
        "TypeError: Method RegExp.prototype.test called on incompatible receiver undefined" ∧
    ∃ N, normalized exHost true exGuideHook "development" = .ok N ∧
      (exGuideHook.updateWebpackConfig = none →
        buildConfig exHost true exGuideHook "development" = .ok N) ∧
      (∀ h r, exGuideHook.updateWebpackConfig = some h → h.run N "development" = .ok r →
        buildConfig exHost true exGuideHook "development" = .ok r) :=
  ⟨(user_errors_propagate exHost false exGuideFnThrow "development").1 _ "no config" rfl rfl,
   ((user_errors_propagate exHost false
      { exGuide with webpackConfig := some (.value
          [("module", obj [("loaders", arr [regexp (fun _ => true)])])]) } "production").2.2
      (some [("module", obj [("loaders", arr [regexp (fun _ => true)])])]) []
      [regexp (fun _ => true)] rfl rfl rfl).1 _ rfl,
   ((user_errors_propagate exHost true exGuideHook "development").2.2
      (some exUser) [str "polyfill.js"] [exCssRule] rfl rfl rfl).2 false rfl⟩

/-- C17: the user merge leaves `resolveLoader` and `styleguidist` of the
accumulated configuration as they are, whatever the user configuration holds
there.  Without a post-processing hook the returned `resolveLoader` is exactly
the tool's loaders directory followed by `node_modules`, under `modules` in the
Modern shape and under `modulesDirectories` in the Legacy shape, and in the
Legacy shape the returned `styleguidist` is the guide configuration passed to
`buildConfig`; a configuration is returned whenever the user's configuration is
obtained without error, its `entry` and `module.loaders` are sequences or
absent and probing its rules raises no error. -/
theorem loader_resolution_and_settings_kept (host : Host) (webpack2 : Bool)
    (config : GuideConfig) (env : String)
    (hHook : config.updateWebpackConfig = none) :
    (∀ acc r, userMerge (obj acc) config env = .ok r →
      field r "resolveLoader" = lookup "resolveLoader" acc ∧
      field r "styleguidist" = lookup "styleguidist" acc) ∧
    (∀ r, buildConfig host webpack2 config env = .ok r →
      field r "resolveLoader"
        = some (obj [(if webpack2 then "modules" else "modulesDirectories",
            arr [str host.loadersDir, str "node_modules"])]) ∧
      (webpack2 = false → field r "styleguidist" = some config.toJs)) ∧
    (∀ uo E L b, userConfig config env = .ok uo → userSeq (uo.getD []) "entry" = some E →
      userLoaders (uo.getD []) = some L → reduceLoaders false L = .ok b →
      ∃ r, buildConfig host webpack2 config env = .ok r) := by
  refine ⟨?_, ?_, ?_⟩
  · intro acc r hr
    obtain ⟨uo, _, hf⟩ := userMerge_ok _ _ _ _ hr
    have h1 : safeLookup "resolveLoader" (uo.getD []) = none := by
      simp [safeLookup, protectedKeys]
    have h2 : safeLookup "styleguidist" (uo.getD []) = none := by
      simp [safeLookup, protectedKeys]
    exact ⟨by rw [hf, h1, combine_none], by rw [hf, h2, combine_none]⟩
  · rw [buildConfig_noHook _ _ _ _ hHook]
    intro r hr
    obtain ⟨uo, _, _, _, hk⟩ := normalizedWith_ok _ _ _ _ _ _ hr
    have h1 : safeLookup "resolveLoader" (uo.getD []) = none := by
      simp [safeLookup, protectedKeys]
    have h2 : safeLookup "styleguidist" (uo.getD []) = none := by
      simp [safeLookup, protectedKeys]
    constructor
    · rw [hk "resolveLoader" (by decide) (by decide), merged, h1, combine_none,
        lookup_core_resolveLoader]
      rfl
    · intro hw
      subst hw
      rw [hk "styleguidist" (by decide) (by decide), merged, h2, combine_none,
        lookup_core_styleguidist]
      rfl
  · rw [buildConfig_noHook _ _ _ _ hHook]
    intro uo E L b hu hE hL hb
    exact normalizedWith_returns _ _ _ _ _ _ _ _ _ hu hE hL hb

/-- Witness for C17: a user who sets `resolveLoader` and `styleguidist`, Legacy
shape. -/
theorem loader_resolution_and_settings_kept_witness :
    ∃ r, buildConfig exHost false exGuideProtected "production" = .ok r ∧
      field r "resolveLoader"
        = some (obj [("modulesDirectories", arr [str "/pkg/loaders", str "node_modules"])]) ∧
      field r "styleguidist" = some exGuideProtected.toJs :=
  ⟨_, rfl,
    ((loader_resolution_and_settings_kept exHost false exGuideProtected "production" rfl).2.1
      _ rfl).1,
    ((loader_resolution_and_settings_kept exHost false exGuideProtected "production" rfl).2.1
      _ rfl).2 rfl⟩

/-- C18: without a post-processing hook, for either shape and a user
configuration with entry sequence `E` (empty when the user configuration or its
`entry` is absent), the returned entry sequence is the hot-reload client, then
`E`, then the internal entry path when the environment is not `production`, and
`E` then the internal entry path when it is; a configuration is returned
whenever the user's `module.loaders` is a sequence or absent and probing its
rules raises no error. -/
theorem entry_sequence_exact (host : Host) (webpack2 : Bool) (config : GuideConfig)
    (env : String) (uo : Option Fields) (E : List JsVal)
    (hHook : config.updateWebpackConfig = none)
    (hu : userConfig config env = .ok uo)
    (hE : userSeq (uo.getD []) "entry" = some E) :
    (∀ r, buildConfig host webpack2 config env = .ok r →
      (env ≠ "production" →
        seqField r "entry" = some ([str host.hotDevClient] ++ E ++ [str (indexEntry host)])) ∧
      (env = "production" → seqField r "entry" = some (E ++ [str (indexEntry host)]))) ∧
    (∀ L b, userLoaders (uo.getD []) = some L → reduceLoaders false L = .ok b →
      ∃ r, buildConfig host webpack2 config env = .ok r) := by
  rw [buildConfig_noHook _ _ _ _ hHook]
  constructor
  · intro r hr
    have hentry := entry_of_normalized _ _ _ _ _ _ _ _ hu hE hr
    constructor
    · intro henv
      have h : (env == "production") = false := by simpa using henv
      simpa [coreEntry, h] using hentry
    · intro henv
      subst henv
      simpa [coreEntry] using hentry
  · intro L b hL hb
    exact normalizedWith_returns _ _ _ _ _ _ _ _ _ hu hE hL hb

/-- Witness for C18: one user entry, development and production. -/
theorem entry_sequence_exact_witness :
    (buildConfig exHost false exGuideUser "development" = .ok exLegacyDev ∧
      seqField exLegacyDev "entry" = some ([str exHost.hotDevClient] ++ [str "polyfill.js"]
        ++ [str (indexEntry exHost)])) ∧
    (buildConfig exHost false exGuideUser "production" = .ok exLegacyProd ∧
      seqField exLegacyProd "entry" = some ([str "polyfill.js"] ++ [str (indexEntry exHost)])) :=
  ⟨⟨rfl, ((entry_sequence_exact exHost false exGuideUser "development" (some exUser)
      [str "polyfill.js"] rfl rfl rfl).1 exLegacyDev rfl).1 (by decide)⟩,
   ⟨rfl, ((entry_sequence_exact exHost false exGuideUser "production" (some exUser)
      [str "polyfill.js"] rfl rfl rfl).1 exLegacyProd rfl).2 rfl⟩⟩

/-- C19: for a guide configuration with no user webpack configuration and no
post-processing hook a configuration is returned whose plugins are, in this
order: Legacy production, template injection, environment define, module
ordering, minifier, dedupe; Modern production, template injection, environment
define, loader-options wrapper with `minimize` true and `debug` false, module
ordering, minifier; Legacy development, template injection, environment define,
hot module replacement; Modern development, template injection, environment
define, loader-options wrapper with `minimize` false and `debug` true, hot module
replacement.  Each plugin is written out as the constructor call of the source
with its options. -/
theorem plugin_sequences (host : Host) (config : GuideConfig)
    (hUser : config.webpackConfig = none) (hHook : config.updateWebpackConfig = none) :
    (∃ r, buildConfig host false config "production" = .ok r ∧
      seqField r "plugins" = some
        [inst "HtmlWebpackPlugin"
           [("title", str config.title), ("template", str config.template),
            ("inject", bool true)],
         inst "webpack.DefinePlugin"
           [("process.env", obj [("NODE_ENV", str "\"production\"")])],
         inst "webpack.optimize.OccurrenceOrderPlugin" [],
         inst "webpack.optimize.UglifyJsPlugin"
           [("compress", obj [("keep_fnames", bool true), ("screw_ie8", bool true),
                              ("warnings", bool false)]),
            ("output", obj [("comments", bool false)]),
            ("mangle", obj [("keep_fnames", bool true)])],
         inst "webpack.optimize.DedupePlugin" []]) ∧
    (∃ r, buildConfig host true config "production" = .ok r ∧
      seqField r "plugins" = some
        [inst "HtmlWebpackPlugin"
           [("title", str config.title), ("template", str config.template),
            ("inject", bool true)],
         inst "webpack.DefinePlugin"
           [("process.env", obj [("NODE_ENV", str "\"production\"")])],
         inst "webpack.LoaderOptionsPlugin"
           [("minimize", bool true), ("debug", bool false),
            ("options", obj [("styleguidist", config.toJs)])],
         inst "webpack.optimize.OccurrenceOrderPlugin" [],
         inst "webpack.optimize.UglifyJsPlugin"
           [("compress", obj [("keep_fnames", bool true), ("screw_ie8", bool true),
                              ("warnings", bool false)]),
            ("output", obj [("comments", bool false)]),
            ("mangle", obj [("keep_fnames", bool true)])]]) ∧
    (∃ r, buildConfig host false config "development" = .ok r ∧
      seqField r "plugins" = some
        [inst "HtmlWebpackPlugin"
           [("title", str config.title), ("template", str config.template),
            ("inject", bool true)],
         inst "webpack.DefinePlugin"
           [("process.env", obj [("NODE_ENV", str "\"development\"")])],
         inst "webpack.HotModuleReplacementPlugin" []]) ∧
    (∃ r, buildConfig host true config "development" = .ok r ∧
      seqField r "plugins" = some
        [inst "HtmlWebpackPlugin"
           [("title", str config.title), ("template", str config.template),
            ("inject", bool true)],
         inst "webpack.DefinePlugin"
           [("process.env", obj [("NODE_ENV", str "\"development\"")])],
         inst "webpack.LoaderOptionsPlugin"
           [("minimize", bool false), ("debug", bool true),
            ("options", obj [("styleguidist", config.toJs)])],
         inst "webpack.HotModuleReplacementPlugin" []]) := by
  have hp : jsonStringify "production" = "\"production\"" := by decide
  have hd : jsonStringify "development" = "\"development\"" := by decide
  refine ⟨?_, ?_, ?_, ?_⟩
  · obtain ⟨r, hr, _, _, hpl, _⟩ := buildConfig_noUser host false config "production" hUser hHook
    exact ⟨r, hr, by rw [hpl, ← hp]; rfl⟩
  · obtain ⟨r, hr, _, _, hpl, _⟩ := buildConfig_noUser host true config "production" hUser hHook
    exact ⟨r, hr, by rw [hpl, ← hp]; rfl⟩
  · obtain ⟨r, hr, _, _, hpl, _⟩ := buildConfig_noUser host false config "development" hUser hHook
    exact ⟨r, hr, by rw [hpl, ← hd]; rfl⟩
  · obtain ⟨r, hr, _, _, hpl, _⟩ := buildConfig_noUser host true config "development" hUser hHook
    exact ⟨r, hr, by rw [hpl, ← hd]; rfl⟩

/-- Witness for C19: the guide configuration `exGuide`, Legacy shape in
production and Modern shape in development. -/
theorem plugin_sequences_witness :
    (∃ r, buildConfig exHost false exGuide "production" = .ok r ∧
      seqField r "plugins" = some
        [inst "HtmlWebpackPlugin"
           [("title", str "Guide"), ("template", str "t.html"), ("inject", bool true)],
         inst "webpack.DefinePlugin"
           [("process.env", obj [("NODE_ENV", str "\"production\"")])],
         inst "webpack.optimize.OccurrenceOrderPlugin" [],
         inst "webpack.optimize.UglifyJsPlugin"
           [("compress", obj [("keep_fnames", bool true), ("screw_ie8", bool true),
                              ("warnings", bool false)]),
            ("output", obj [("comments", bool false)]),
            ("mangle", obj [("keep_fnames", bool true)])],
         inst "webpack.optimize.DedupePlugin" []]) ∧
    (∃ r, buildConfig exHost true exGuide "development" = .ok r ∧
      seqField r "plugins" = some
        [inst "HtmlWebpackPlugin"
           [("title", str "Guide"), ("template", str "t.html"), ("inject", bool true)],
         inst "webpack.DefinePlugin"
           [("process.env", obj [("NODE_ENV", str "\"development\"")])],
         inst "webpack.LoaderOptionsPlugin"
           [("minimize", bool false), ("debug", bool true),
            ("options", obj [("styleguidist", exGuide.toJs)])],
         inst "webpack.HotModuleReplacementPlugin" []]) :=
  ⟨(plugin_sequences exHost exGuide rfl rfl).1,
   (plugin_sequences exHost exGuide rfl rfl).2.2.2⟩

/-- Counterexample to C20: with a rule whose matcher throws on the probe the
outcome depends on the order of the rules, and `hasJsonLoader` is not true
although a rule accepts the probe. -/
theorem hasJsonLoader_depends_on_order :
    [exThrowRule, jsonLoaderRule].Perm [jsonLoaderRule, exThrowRule] ∧
    ruleAccepts jsonLoaderRule = true ∧
    hasJsonLoader (exLoadersConfig [exThrowRule, jsonLoaderRule]) = .error "boom" ∧
    hasJsonLoader (exLoadersConfig [jsonLoaderRule, exThrowRule]) = .ok true :=
  ⟨List.Perm.swap _ _ _, jsonLoaderRule_accepts, rfl, rfl⟩

/-- C20, amended: for a configuration with loaders `L`, `hasJsonLoader` is the
left-to-right scan of the matchers of `L`, rule after rule and within a rule in
the order of its list: true at the first matcher that accepts the probe
`test.json`, the error of the first that raises one, false when none does
either.  So whenever it returns, its value is true exactly when some rule of `L`
has among its matchers one that accepts; it is true exactly when the first
verdict that does not reject accepts, and fails with `e` exactly when that
verdict raises `e`, whether the matchers before it belong to earlier rules or to
the same rule; when no verdict raises it returns
and the outcome is the same for every reordering of the rules; on empty loaders
it returns false; and a matcher accepts only if it is a pattern that matches the
probe or a predicate that returns a value that is not falsy on it. -/
theorem hasJsonLoader_iff_some_rule_accepts (c : JsVal) (L : List JsVal)
    (hL : loadersOf c = some L) :
    hasJsonLoader c = scan (verdictsOf L) ∧
    (∀ b, hasJsonLoader c = .ok b →
      (b = true ↔ ∃ rule ∈ L, ∃ m ∈ ruleMatchers rule, verdict m = .accepts)) ∧
    (hasJsonLoader c = .ok true ↔
      ∃ before after, verdictsOf L = before ++ Verdict.accepts :: after ∧
        ∀ v ∈ before, v = Verdict.rejects) ∧
    (∀ e, hasJsonLoader c = .error e ↔
      ∃ before after, verdictsOf L = before ++ Verdict.raises e :: after ∧
        ∀ v ∈ before, v = Verdict.rejects) ∧
    ((∀ v ∈ verdictsOf L, v = Verdict.accepts ∨ v = Verdict.rejects) →
      hasJsonLoader c = .ok (L.any ruleAccepts) ∧
      ∀ c' L', loadersOf c' = some L' → L.Perm L' → hasJsonLoader c' = hasJsonLoader c) ∧
    (L = [] → hasJsonLoader c = .ok false) ∧
    (∀ m, verdict m = .accepts →
      (∃ test, m = some (regexp test) ∧ test "test.json" = true) ∨
      (∃ call v, m = some (func call) ∧ call "test.json" = .ok v ∧ falsy v = false)) := by
  have hscan : hasJsonLoader c = scan (verdictsOf L) := by
    rw [hasJsonLoader_of_loaders c L hL, reduceLoaders_eq_scan]
  rw [hscan]
  refine ⟨rfl, ?_, scan_true_iff _, ?_, ?_, ?_, ?_⟩
  · intro b hb
    rw [scan_ok _ _ hb, mem_verdictsOf]
    constructor
    · rintro ⟨rule, hr, hv⟩
      exact ⟨rule, hr, (accepts_mem_ruleVerdicts rule).mp hv⟩
    · rintro ⟨rule, hr, hv⟩
      exact ⟨rule, hr, (accepts_mem_ruleVerdicts rule).mpr hv⟩
  · intro e
    exact scan_error_iff _ e
  · intro hs'
    have hs : ∀ e, Verdict.raises e ∉ verdictsOf L := by
      intro e he
      rcases hs' _ he with h | h <;> cases h
    constructor
    · rw [scan_of_no_raise _ hs]
      congr 1
      rw [Bool.eq_iff_iff]
      simpa using accepts_mem_verdictsOf L
    · intro c' L' hL' hperm
      rw [hasJsonLoader_of_loaders c' L' hL', reduceLoaders_eq_scan]
      exact scan_perm L L' hperm hs
  · intro hnil
    subst hnil
    rfl
  · intro m hm
    exact verdict_accepts m hm

/-- Witness for the amended C20: a rule for style sheets and a rule with a
predicate for JSON files, in both orders; and a rule whose list has an accepting
pattern before a predicate that throws, for which `hasJsonLoader` is true. -/
theorem hasJsonLoader_iff_some_rule_accepts_witness :
    hasJsonLoader (exLoadersConfig [exCssRule, exJsonRule]) = .ok true ∧
    hasJsonLoader (exLoadersConfig [exJsonRule, exCssRule])
      = hasJsonLoader (exLoadersConfig [exCssRule, exJsonRule]) ∧
    hasJsonLoader (exLoadersConfig [exAcceptThenThrowRule]) = .ok true ∧
    hasJsonLoader (exLoadersConfig [exAcceptThenThrowRule])
      = scan [Verdict.accepts, Verdict.raises "boom"] :=
  ⟨((hasJsonLoader_iff_some_rule_accepts (exLoadersConfig [exCssRule, exJsonRule])
      [exCssRule, exJsonRule] rfl).2.2.2.2.1 (by decide)).1,
   ((hasJsonLoader_iff_some_rule_accepts (exLoadersConfig [exCssRule, exJsonRule])
      [exCssRule, exJsonRule] rfl).2.2.2.2.1 (by decide)).2 _ [exJsonRule, exCssRule] rfl
      (List.Perm.swap _ _ _),
   rfl,
   (hasJsonLoader_iff_some_rule_accepts (exLoadersConfig [exAcceptThenThrowRule])
      [exAcceptThenThrowRule] rfl).1⟩

end MakeWebpackConfig
